import Mathlib

/-!
Verification of the photo-extraction pipeline of `extract-photos-from-videos`.

The development shallowly embeds the core of `extract_photos/extract.py`,
`extract_photos/borders.py` and `extract_photos/utils.py`:

* images are total functions from (row, column) to a rational pixel value
  (uint8 values 0..255 embedded in `ℚ`; image statistics are exact rationals);
* the OpenCV / NumPy primitives the code calls (`cvtColor` with BGR→gray
  weights 0.299/0.587/0.114, `resize` with `INTER_AREA` area averaging,
  `np.std`, `np.unique`, …) are modelled by their documented semantics over
  that representation, without the final uint8 re-quantisation;
* every comparison of a standard deviation `np.std(x) ⋈ t` is encoded
  square-root-free through the variance (`std < t ↔ 0 < t ∧ var < t²`,
  `std ≤ t ↔ 0 ≤ t ∧ var ≤ t²`, `std > t ↔ t < 0 ∨ t² < var`, valid because
  `std = sqrt var ≥ 0`), so all definitions stay executable over `ℚ`;
* the frame-stepping scanner loop, the full-resolution extraction loop and
  the string sanitiser are translated statement by statement.
-/

namespace ExtractPhotos

/-- A single-channel raster: height, width, and a pixel function.
Pixels outside `[0,h) × [0,w)` are irrelevant junk, every operation only
reads indices in range. -/
structure GrayImg where
  h : ℕ
  w : ℕ
  pix : ℕ → ℕ → ℚ

/-- A decoded frame: either single-channel (`len(shape) == 2`) or 3-channel
BGR (`len(shape) == 3`), mirroring the NumPy array ranks the code branches on. -/
inductive Image where
  | gray (h w : ℕ) (pix : ℕ → ℕ → ℚ)
  | color (h w : ℕ) (b g r : ℕ → ℕ → ℚ)

/-- `image.shape[0]`. -/
def Image.height : Image → ℕ
  | .gray h _ _ => h
  | .color h _ _ _ _ => h

/-- `image.shape[1]`. -/
def Image.width : Image → ℕ
  | .gray _ w _ => w
  | .color _ w _ _ _ => w

/-- BGR → grayscale conversion weight formula used by `cv2.cvtColor(_, COLOR_BGR2GRAY)`:
`0.299·R + 0.587·G + 0.114·B` (fixed-point rounding elided). -/
def bgr2gray (b g r : ℚ) : ℚ := (299 * r + 587 * g + 114 * b) / 1000

/-- `cv2.cvtColor(frame, COLOR_BGR2GRAY) if len(frame.shape) == 3 else frame`. -/
def toGray : Image → GrayImg
  | .gray h w p => ⟨h, w, p⟩
  | .color h w b g r => ⟨h, w, fun i j => bgr2gray (b i j) (g i j) (r i j)⟩

/-- Sum of `f` over the grid `[0,h) × [0,w)`. -/
def gridSum (h w : ℕ) (f : ℕ → ℕ → ℚ) : ℚ :=
  ∑ i ∈ Finset.range h, ∑ j ∈ Finset.range w, f i j

/-- Sum of all pixels of an image (`np.sum`). -/
def sumPix (A : GrayImg) : ℚ := gridSum A.h A.w A.pix

/-- `np.mean` over a whole single-channel image. -/
def meanPix (A : GrayImg) : ℚ := sumPix A / (A.h * A.w)

/-- `np.var` (population variance) over a whole single-channel image;
`np.std` is its square root. -/
def varPix (A : GrayImg) : ℚ :=
  gridSum A.h A.w (fun i j => (A.pix i j - meanPix A) ^ 2) / (A.h * A.w)

/-- Variance of the sub-rectangle with rows `[r0,r1)` and columns `[c0,c1)`
(`np.std(region)**2` for a NumPy slice). -/
def rectVar (A : GrayImg) (r0 r1 c0 c1 : ℕ) : ℚ :=
  varPix ⟨r1 - r0, c1 - c0, fun i j => A.pix (r0 + i) (c0 + j)⟩

/-- Maximum pixel value of the sub-rectangle (`np.max(region)`); pixels are
nonnegative in every reachable use, so folding `max` from 0 is exact. -/
def rectMax (A : GrayImg) (r0 r1 c0 c1 : ℕ) : ℚ :=
  Finset.fold max 0 (fun p : ℕ × ℕ => A.pix (r0 + p.1) (c0 + p.2))
    (Finset.range (r1 - r0) ×ˢ Finset.range (c1 - c0))

/-- Row variance: `np.std(gray[i, :])**2`. -/
def rowVar (A : GrayImg) (i : ℕ) : ℚ := rectVar A i (i + 1) 0 A.w

/-- Column variance: `np.std(gray[:, j])**2`. -/
def colVar (A : GrayImg) (j : ℕ) : ℚ := rectVar A 0 A.h j (j + 1)

/-- `np.std(x) < t`, square-root-free: `std < t ↔ 0 < t ∧ var < t²`. -/
def stdLt (v t : ℚ) : Prop := 0 < t ∧ v < t ^ 2

/-- `np.std(x) ≤ t`, square-root-free: `std ≤ t ↔ 0 ≤ t ∧ var ≤ t²`. -/
def stdLe (v t : ℚ) : Prop := 0 ≤ t ∧ v ≤ t ^ 2

/-- `np.std(x) > t`, square-root-free: `std > t ↔ t < 0 ∨ t² < var`. -/
def stdGt (v t : ℚ) : Prop := t < 0 ∨ t ^ 2 < v

instance (v t : ℚ) : Decidable (stdLt v t) := by unfold stdLt; infer_instance
instance (v t : ℚ) : Decidable (stdLe v t) := by unfold stdLe; infer_instance
instance (v t : ℚ) : Decidable (stdGt v t) := by unfold stdGt; infer_instance

/-- Length of the overlap of the real interval `[a,b]` with the unit cell
`[r,r+1]` — the weight a source row/column `r` carries in `cv2.resize`'s
`INTER_AREA` area averaging. -/
def overlapLen (a b : ℚ) (r : ℕ) : ℚ :=
  max 0 (min ((r : ℚ) + 1) b - max (r : ℚ) a)

/-- One output pixel of `cv2.resize(A, (ow, oh), interpolation=INTER_AREA)`:
the area-weighted average of the source pixels covered by the back-projected
output cell `[i·sy,(i+1)·sy] × [j·sx,(j+1)·sx]`. -/
def resizePix (A : GrayImg) (oh ow i j : ℕ) : ℚ :=
  (∑ r ∈ Finset.range A.h, ∑ c ∈ Finset.range A.w,
      overlapLen ((i : ℚ) * ((A.h : ℚ) / (oh : ℚ))) (((i : ℚ) + 1) * ((A.h : ℚ) / (oh : ℚ))) r *
        overlapLen ((j : ℚ) * ((A.w : ℚ) / (ow : ℚ))) (((j : ℚ) + 1) * ((A.w : ℚ) / (ow : ℚ))) c *
        A.pix r c) /
    (((A.h : ℚ) / (oh : ℚ)) * ((A.w : ℚ) / (ow : ℚ)))

/-- `cv2.resize(A, (ow, oh), interpolation=INTER_AREA)` on one channel. -/
def resize (A : GrayImg) (oh ow : ℕ) : GrayImg :=
  ⟨oh, ow, fun i j => resizePix A oh ow i j⟩

/-- `HASH_SIZE = 8`. -/
def HASH_SIZE : ℕ := 8

/-- `HASH_DIFF_THRESHOLD = 10` (first-detection threshold). -/
def HASH_DIFF_THRESHOLD : ℕ := 10

/-- `HASH_STEP_THRESHOLD = 3` (step-to-step threshold). -/
def HASH_STEP_THRESHOLD : ℕ := 3

/-- A perceptual hash: the 8×8 boolean matrix; only indices below 8 matter. -/
def Hash := ℕ → ℕ → Bool

/-- `compute_frame_hash`: grayscale, resize to 8×8 with `INTER_AREA`, then
threshold each pixel against the resized image's own mean
(`resized > resized.mean()`). -/
def computeFrameHash (frame : Image) : Hash :=
  let resized := resize (toGray frame) HASH_SIZE HASH_SIZE
  fun i j => decide (meanPix resized < resized.pix i j)

/-- `hash_difference`: Hamming distance, `np.count_nonzero(hash1 != hash2)`
over the 8×8 matrices. -/
def hashDifference (h1 h2 : Hash) : ℕ :=
  ∑ i ∈ Finset.range HASH_SIZE, ∑ j ∈ Finset.range HASH_SIZE,
    if h1 i j ≠ h2 i j then 1 else 0

/-- `detect_almost_uniform_borders(frame, border_width=5, threshold=5,
pillarbox_threshold=1)`: grayscale, take the four `border_width`-wide edge
strips, and accept if (1) all four strips have `std ≤ threshold`, or
(2) left+right strips have `std ≤ pillarbox_threshold` and max pixel < 3, or
(3) top+bottom strips likewise. -/
def detectAlmostUniformBorders (frame : Image) (borderWidth : ℕ := 5)
    (threshold : ℚ := 5) (pillarboxThreshold : ℚ := 1) : Bool :=
  let g := toGray frame
  let leftVar := rectVar g 0 g.h 0 borderWidth
  let rightVar := rectVar g 0 g.h (g.w - borderWidth) g.w
  let topVar := rectVar g 0 borderWidth 0 g.w
  let bottomVar := rectVar g (g.h - borderWidth) g.h 0 g.w
  if stdLe leftVar threshold ∧ stdLe rightVar threshold ∧
      stdLe topVar threshold ∧ stdLe bottomVar threshold then
    true
  else if stdLe leftVar pillarboxThreshold ∧ stdLe rightVar pillarboxThreshold ∧
      rectMax g 0 g.h 0 borderWidth < 3 ∧ rectMax g 0 g.h (g.w - borderWidth) g.w < 3 then
    true
  else if stdLe topVar pillarboxThreshold ∧ stdLe bottomVar pillarboxThreshold ∧
      rectMax g 0 borderWidth 0 g.w < 3 ∧ rectMax g (g.h - borderWidth) g.h 0 g.w < 3 then
    true
  else
    false

/-- `_is_near_uniform(image, std_threshold=5.0)`: grayscale std below the
threshold ⇒ `"near-uniform frame"`, else `None`. -/
def isNearUniform (image : Image) (stdThreshold : ℚ := 5) : Option String :=
  if stdLt (varPix (toGray image)) stdThreshold then some "near-uniform frame" else none

/-- The near-white pixel count of `_is_screenshot`'s stage 1: the image is
downscaled to `ss × ss`, converted to grayscale, and the pixels brighter
than 240 are counted (`np.count_nonzero(gray > 240)`). -/
def screenshotWhiteCount (h w : ℕ) (b g r : ℕ → ℕ → ℚ) (ss : ℕ) : ℕ :=
  let sb := resize ⟨h, w, b⟩ ss ss
  let sg := resize ⟨h, w, g⟩ ss ss
  let sr := resize ⟨h, w, r⟩ ss ss
  ∑ i ∈ Finset.range ss, ∑ j ∈ Finset.range ss,
    if 240 < bgr2gray (sb.pix i j) (sg.pix i j) (sr.pix i j) then 1 else 0

/-- `white_pct` of `_is_screenshot`: percentage of near-white pixels of the
downscaled image. -/
def screenshotWhitePct (h w : ℕ) (b g r : ℕ → ℕ → ℚ) (ss : ℕ) : ℚ :=
  (screenshotWhiteCount h w b g r ss : ℚ) / ((ss : ℚ) * (ss : ℚ)) * 100

/-- `mean_channel_diff` of `_is_screenshot`: the average over the three
channel pairs (B−G, B−R, G−R) of the mean absolute difference of the
downscaled channels. -/
def screenshotMeanChannelDiff (h w : ℕ) (b g r : ℕ → ℕ → ℚ) (ss : ℕ) : ℚ :=
  let sb := resize ⟨h, w, b⟩ ss ss
  let sg := resize ⟨h, w, g⟩ ss ss
  let sr := resize ⟨h, w, r⟩ ss ss
  ((∑ i ∈ Finset.range ss, ∑ j ∈ Finset.range ss, |sb.pix i j - sg.pix i j|) / ((ss : ℚ) * (ss : ℚ)) +
      (∑ i ∈ Finset.range ss, ∑ j ∈ Finset.range ss, |sb.pix i j - sr.pix i j|) / ((ss : ℚ) * (ss : ℚ)) +
      (∑ i ∈ Finset.range ss, ∑ j ∈ Finset.range ss, |sg.pix i j - sr.pix i j|) / ((ss : ℚ) * (ss : ℚ))) / 3

/-- `unique_colors` of `_is_screenshot`'s stage 2: quantize each downscaled
channel to 32 levels (`small // 8`), pack the three quantized channels of a
pixel into one integer (`ch0·1024 + ch1·32 + ch2`), and count the distinct
packed values across the sample (`len(np.unique(packed))`). -/
def screenshotUniqueColors (h w : ℕ) (b g r : ℕ → ℕ → ℚ) (ss : ℕ) : ℕ :=
  let sb := resize ⟨h, w, b⟩ ss ss
  let sg := resize ⟨h, w, g⟩ ss ss
  let sr := resize ⟨h, w, r⟩ ss ss
  ((Finset.range ss ×ˢ Finset.range ss).image fun p : ℕ × ℕ =>
      ⌊sb.pix p.1 p.2 / 8⌋ * 1024 + ⌊sg.pix p.1 p.2 / 8⌋ * 32 + ⌊sr.pix p.1 p.2 / 8⌋).card

/-- `_is_screenshot(image, color_count_threshold=100, sample_size=128)`:
single-channel images are accepted outright; otherwise stage 1 rejects when
more than 30% of the downscaled pixels are near-white, the grayscale
early-out accepts when the downscaled channels differ by a mean absolute
difference below 10, and stage 2 rejects when the quantized unique-color
count is below the threshold. (`{white_pct:.0f}` is modelled by `round`.) -/
def isScreenshot (image : Image) (colorCountThreshold : ℕ := 100)
    (sampleSize : ℕ := 128) : Option String :=
  match image with
  | .gray _ _ _ => none
  | .color h w b g r =>
    let whitePct := screenshotWhitePct h w b g r sampleSize
    if 30 < whitePct then
      some ("screenshot (" ++ toString (round whitePct) ++ "% white background)")
    else if screenshotMeanChannelDiff h w b g r sampleSize < 10 then
      none
    else
      let uniqueColors := screenshotUniqueColors h w b g r sampleSize
      if uniqueColors < colorCountThreshold then
        some ("screenshot (" ++ toString uniqueColors ++ " unique colors)")
      else
        none

/-- `_rejection_reason(image, min_photo_area=0)`: size check, then
near-uniform check, then screenshot check; first failure wins. -/
def rejectionReason (image : Image) (minPhotoArea : ℕ := 0) : Option String :=
  if 0 < minPhotoArea ∧ image.width * image.height < minPhotoArea then
    some ("too small (" ++ toString image.width ++ "x" ++ toString image.height ++ ")")
  else
    match isNearUniform image 5 with
    | some reason => some reason
    | none =>
      match isScreenshot image 100 128 with
      | some reason => some reason
      | none => none

/-! ### `borders.py` -/

/-- `_find_text_gap_from_edge(density, content_fraction=0.3, min_gap_px=10)`:
look for sparse content (text) → zero-density gap → dense content (photo)
walking inward from one edge of a 1-D density profile. The Python source's
`if gap_start is None` guard after the backward `for`/`else` is unreachable
(the `else` already returned) and is not represented. -/
def findTextGapFromEdge (density : List ℚ) (contentFraction : ℚ := 0.3)
    (minGapPx : ℕ := 10) : ℕ × ℕ :=
  let n := density.length
  if n = 0 then (0, 0)
  else
    match (List.range n).find? fun i => decide (contentFraction ≤ density.getD i 0) with
    | none => (0, 0)
    | some denseStart =>
      if denseStart < minGapPx then (0, 0)
      else
        match (List.range denseStart).reverse.find? fun i => decide (0 < density.getD i 0) with
        | none => (0, 0)
        | some lastText =>
          let gapStart := lastText + 1
          let gapWidth := denseStart - gapStart
          if gapWidth < minGapPx then (0, 0)
          else if (List.range gapStart).any fun i =>
              decide (0 < density.getD i 0 ∧ density.getD i 0 < contentFraction) then
            (gapWidth, denseStart)
          else (0, 0)

/-- `_detect_text_padding(cropped_gray, border_gray_value,
border_diff_threshold=30, content_fraction=0.3, min_gap_px=10)`: binary
content mask (pixel differs from the border gray value by more than the
threshold), column/row density profiles, and the four edge scans. Returns
`(padding, crop)` as (top, bottom, left, right) 4-tuples. -/
def detectTextPadding (cg : GrayImg) (borderGrayValue : ℤ)
    (borderDiffThreshold : ℚ := 30) (contentFraction : ℚ := 0.3) (minGapPx : ℕ := 10) :
    (ℕ × ℕ × ℕ × ℕ) × (ℕ × ℕ × ℕ × ℕ) :=
  let mask : ℕ → ℕ → ℚ := fun i j =>
    if borderDiffThreshold < |cg.pix i j - (borderGrayValue : ℚ)| then 1 else 0
  let colDensity : List ℚ :=
    (List.range cg.w).map fun j => (∑ i ∈ Finset.range cg.h, mask i j) / (cg.h : ℚ)
  let rowDensity : List ℚ :=
    (List.range cg.h).map fun i => (∑ j ∈ Finset.range cg.w, mask i j) / (cg.w : ℚ)
  let lft := findTextGapFromEdge colDensity contentFraction minGapPx
  let rgt := findTextGapFromEdge colDensity.reverse contentFraction minGapPx
  let top := findTextGapFromEdge rowDensity contentFraction minGapPx
  let bot := findTextGapFromEdge rowDensity.reverse contentFraction minGapPx
  ((top.1, bot.1, lft.1, rgt.1), (top.2, bot.2, lft.2, rgt.2))

/-- NumPy slice `image[r0:r1, c0:c1]` (on every channel). -/
def cropImage : Image → ℕ → ℕ → ℕ → ℕ → Image
  | .gray _ _ p, r0, r1, c0, c1 => .gray (r1 - r0) (c1 - c0) fun i j => p (r0 + i) (c0 + j)
  | .color _ _ b g r, r0, r1, c0, c1 =>
    .color (r1 - r0) (c1 - c0) (fun i j => b (r0 + i) (c0 + j))
      (fun i j => g (r0 + i) (c0 + j)) fun i j => r (r0 + i) (c0 + j)

/-- `int(np.mean(region))` for a channel: Python `int()` truncates toward
zero, which is the floor for these nonnegative means. -/
def intMean (A : GrayImg) : ℤ := ⌊meanPix A⌋

/-- Channel 0 (blue for a color image, the single channel for grayscale). -/
def Image.chB : Image → ℕ → ℕ → ℚ
  | .gray _ _ p => p
  | .color _ _ b _ _ => b

/-- Channel 1 (green for a color image, the single channel for grayscale). -/
def Image.chG : Image → ℕ → ℕ → ℚ
  | .gray _ _ p => p
  | .color _ _ _ g _ => g

/-- Channel 2 (red for a color image, the single channel for grayscale). -/
def Image.chR : Image → ℕ → ℕ → ℚ
  | .gray _ _ p => p
  | .color _ _ _ _ r => r

/-- `cv2.copyMakeBorder(img, pt, pb, pl, pr, BORDER_CONSTANT, value=color)`;
the fill color is `int(np.mean(border_sample))` for a grayscale image and
the per-channel `[int(c) for c in np.mean(border_sample, axis=(0,1))]` for a
color image, exactly as computed at the end of `trim_and_add_border`. -/
def copyMakeBorder (img : Image) (pt pb pl pr : ℕ) (borderSample : Image) : Image :=
  match img with
  | .gray h w p =>
    let bc : ℚ := (intMean (toGray borderSample) : ℚ)
    .gray (h + pt + pb) (w + pl + pr) fun i j =>
      if pt ≤ i ∧ i < pt + h ∧ pl ≤ j ∧ j < pl + w then p (i - pt) (j - pl) else bc
  | .color h w b g r =>
    let bb : ℚ := (intMean ⟨borderSample.height, borderSample.width, borderSample.chB⟩ : ℚ)
    let bg : ℚ := (intMean ⟨borderSample.height, borderSample.width, borderSample.chG⟩ : ℚ)
    let br : ℚ := (intMean ⟨borderSample.height, borderSample.width, borderSample.chR⟩ : ℚ)
    .color (h + pt + pb) (w + pl + pr)
      (fun i j => if pt ≤ i ∧ i < pt + h ∧ pl ≤ j ∧ j < pl + w then b (i - pt) (j - pl) else bb)
      (fun i j => if pt ≤ i ∧ i < pt + h ∧ pl ≤ j ∧ j < pl + w then g (i - pt) (j - pl) else bg)
      fun i j => if pt ≤ i ∧ i < pt + h ∧ pl ≤ j ∧ j < pl + w then r (i - pt) (j - pl) else br

/-- The predicate of the row scans of `trim_and_add_border`:
`np.std(gray[i, :]) > uniformity_threshold`. -/
def rowStdGtB (g : GrayImg) (t : ℚ) (i : ℕ) : Bool := decide (stdGt (rowVar g i) t)

/-- The predicate of the column scans of `trim_and_add_border`:
`np.std(gray[:, j]) > uniformity_threshold`. -/
def colStdGtB (g : GrayImg) (t : ℚ) (j : ℕ) : Bool := decide (stdGt (colVar g j) t)

/-- `trim_and_add_border(image, border_px=5, uniformity_threshold=10,
include_text=True)`: scan for the first/last non-uniform row/column, return
the input unchanged when no row qualifies (the top scan's `for`/`else`),
otherwise crop to content, detect text padding, and re-add a constant border
sampled from the original top-left border region. -/
def trimAndAddBorder (image : Image) (borderPx : ℕ := 5)
    (uniformityThreshold : ℚ := 10) (includeText : Bool := true) : Image :=
  let g := toGray image
  match (List.range g.h).find? (rowStdGtB g uniformityThreshold) with
  | none => image
  | some top =>
    let bottom := ((List.range g.h).reverse.find? (rowStdGtB g uniformityThreshold)).getD (g.h - 1)
    let left := ((List.range g.w).find? (colStdGtB g uniformityThreshold)).getD 0
    let right := ((List.range g.w).reverse.find? (colStdGtB g uniformityThreshold)).getD (g.w - 1)
    let borderSample := cropImage image 0 (max top 1) 0 (max left 1)
    let cropped := cropImage image top (bottom + 1) left (right + 1)
    let pc := detectTextPadding (toGray cropped) (intMean (toGray borderSample)) 30 (3/10) 10
    if includeText then
      copyMakeBorder cropped (max borderPx pc.1.1) (max borderPx pc.1.2.1)
        (max borderPx pc.1.2.2.1) (max borderPx pc.1.2.2.2) borderSample
    else
      let ct := pc.2.1
      let cb := pc.2.2.1
      let cl := pc.2.2.2.1
      let cr := pc.2.2.2.2
      let ch := cropped.height
      let cw := cropped.width
      let cropped2 :=
        if 0 < (ch : ℤ) - ct - cb ∧ 0 < (cw : ℤ) - cl - cr then
          cropImage cropped ct (ch - cb) cl (cw - cr)
        else cropped
      copyMakeBorder cropped2 borderPx borderPx borderPx borderPx borderSample

/-! ### `utils.py` -/

/-- The ASCII core of the regex class `\w`: `[0-9A-Za-z_]`. -/
def isWordChar (c : Char) : Bool :=
  decide ((48 ≤ c.toNat ∧ c.toNat ≤ 57) ∨ (65 ≤ c.toNat ∧ c.toNat ≤ 90) ∨
    (97 ≤ c.toNat ∧ c.toNat ≤ 122) ∨ c.toNat = 95)

/-- The ASCII core of the regex class `\s`: space, `\t`, `\n`, `\v`, `\f`, `\r`. -/
def isSpaceChar (c : Char) : Bool :=
  decide (c.toNat = 32 ∨ c.toNat = 9 ∨ c.toNat = 10 ∨ c.toNat = 11 ∨
    c.toNat = 12 ∨ c.toNat = 13)

/-- Python `str.lower()` on one character (ASCII mapping `A-Z → a-z`). -/
def pyLower (c : Char) : Char :=
  if 65 ≤ c.toNat ∧ c.toNat ≤ 90 then Char.ofNat (c.toNat + 32) else c

/-- Python `str.strip()`: drop leading and trailing whitespace. -/
def stripChars (l : List Char) : List Char :=
  ((l.dropWhile isSpaceChar).reverse.dropWhile isSpaceChar).reverse

/-- `re.sub(r"\s+", "-", ·)`: replace every maximal whitespace run by one
hyphen. `inRun` records whether the previous character was whitespace. -/
def collapseWsAux : Bool → List Char → List Char
  | _, [] => []
  | inRun, c :: rest =>
    if isSpaceChar c then
      if inRun then collapseWsAux true rest else '-' :: collapseWsAux true rest
    else c :: collapseWsAux false rest

/-- `re.sub(r"\s+", "-", ·)` on a whole character list. -/
def collapseWs (l : List Char) : List Char := collapseWsAux false l

/-- `make_safe_folder_name(title)`: strip, collapse whitespace runs to
hyphens, delete every character that is neither a word character nor a
hyphen (`re.sub(r"[^\w\-]", "", ·)`), and lowercase. -/
def makeSafeFolderName (title : String) : String :=
  String.mk (((collapseWs (stripChars title.data)).filter
    fun c => isWordChar c || c = '-').map pyLower)

/-! ### The scanner (`scan_for_photos`) -/

/-- Python `int()` on a rational: truncation toward zero. -/
def pythonInt (x : ℚ) : ℤ := if 0 ≤ x then ⌊x⌋ else -⌊-x⌋

/-- `frame_step = int(lowres_fps * step_time); if frame_step < 1: frame_step = 1`. -/
def frameStep (fps stepTime : ℚ) : ℤ :=
  let s := pythonInt (fps * stepTime)
  if s < 1 then 1 else s

/-- The original-video timestamp of a low-res frame index:
`current_frame / lowres_fps if lowres_fps > 0 else 0`. -/
def tsOf (fps : ℚ) (cur : ℕ) : ℚ := if 0 < fps then (cur : ℚ) / fps else 0

/-- Two-digit `"{:02d}"` formatting of the seconds field. -/
def pad2 (n : ℤ) : String := if n < 10 then "0" ++ toString n else toString n

/-- The human-readable time label of `scan_for_photos`:
truncate to whole seconds and tenths, `divmod` by 60, and print
`{minutes}m{seconds:02d}s` with an optional `.{tenths}` suffix. -/
def timeStrOf (ts : ℚ) : String :=
  let totalSeconds := pythonInt ts
  let tenths := pythonInt ((ts - (totalSeconds : ℚ)) * 10)
  let minutes := Int.ediv totalSeconds 60
  let seconds := Int.emod totalSeconds 60
  if 0 < tenths then
    toString minutes ++ "m" ++ pad2 seconds ++ "." ++ toString tenths ++ "s"
  else
    toString minutes ++ "m" ++ pad2 seconds ++ "s"

/-- `step_changed`: the previous step hash exists and differs from the
current hash by more than `HASH_STEP_THRESHOLD`. -/
def stepChangedB (prevStep : Option Hash) (fh : Hash) : Bool :=
  match prevStep with
  | none => false
  | some hs => decide (HASH_STEP_THRESHOLD < hashDifference fh hs)

/-- `is_new_photo`: no photo recorded yet, or an abrupt step change, or a
distance above `HASH_DIFF_THRESHOLD` from the last recorded photo hash. -/
def isNewPhotoB (prevPhoto prevStep : Option Hash) (fh : Hash) : Bool :=
  match prevPhoto with
  | none => true
  | some hp => stepChangedB prevStep fh || decide (HASH_DIFF_THRESHOLD < hashDifference fh hp)

/-- The frame-stepping loop of `scan_for_photos`. `frames` models
`cap.read()` at an exact frame position (`none` = read failure / end of
stream). The loop stops when the current index reaches `totalFrames` or a
read fails; within a photo-like frame it updates the two hash states and
appends a candidate when `is_new_photo`; otherwise it clears both hash
states. The `1 ≤ stepFrames` conjunct is always true in reachable calls
(`frameStep` clamps to at least 1) and only serves termination. -/
def scanLoop (frames : ℕ → Option Image) (totalFrames stepFrames : ℕ) (fps : ℚ)
    (cur : ℕ) (prevPhoto prevStep : Option Hash) (acc : List (ℚ × String)) :
    List (ℚ × String) :=
  if _hlt : cur < totalFrames ∧ 1 ≤ stepFrames then
    match frames cur with
    | none => acc
    | some frame =>
      let ts := tsOf fps cur
      if detectAlmostUniformBorders frame 5 5 1 = true ∧ isNearUniform frame 5 = none then
        let fh := computeFrameHash frame
        let isNew := isNewPhotoB prevPhoto prevStep fh
        scanLoop frames totalFrames stepFrames fps (cur + stepFrames)
          (if isNew then some fh else prevPhoto) (some fh)
          (if isNew then acc ++ [(ts, timeStrOf ts)] else acc)
      else
        scanLoop frames totalFrames stepFrames fps (cur + stepFrames) none none acc
  else acc
termination_by totalFrames - cur
decreasing_by all_goals omega

/-- `scan_for_photos(lowres_path, step_time, ...)`: step through the low-res
video with `frame_step` and return the deduplicated candidate list. -/
def scanForPhotos (frames : ℕ → Option Image) (fps stepTime : ℚ)
    (totalFrames : ℕ) : List (ℚ × String) :=
  scanLoop frames totalFrames (frameStep fps stepTime).toNat fps 0 none none []

/-! ### The full-resolution extractor (`extract_fullres_frames`) -/

/-- Result of the per-candidate external single-frame extraction:
the ffmpeg invocation fails (non-zero exit), the written frame cannot be
read back (`cv2.imread` returns `None`), or a decoded frame. -/
inductive DecodeResult where
  | procFailed
  | unreadable
  | ok (frame : Image)

/-- Disposition of one candidate in `extract_fullres_frames`: the two
per-candidate skip paths, a validation rejection, or a saved JPEG. -/
inductive CandidateOutcome where
  | ffmpegFailed
  | unreadableFrame
  | rejected (reason : String)
  | savedFile (name : String)
deriving DecidableEq

/-- Whether an outcome persisted a file (`saved_count += 1`). -/
def isSavedOutcome : CandidateOutcome → Bool
  | .savedFile _ => true
  | _ => false

/-- The loop body of `extract_fullres_frames` for one `(timestamp, label)`
candidate: decode one frame at the timestamp, skip on failure, otherwise
trim, validate with `_rejection_reason`, and save
`{filename_safe}_{time_str}.jpg` when accepted. -/
def processCandidate (decode : ℚ → DecodeResult) (filenameSafe : String)
    (borderPx minPhotoArea : ℕ) (includeText : Bool) (cand : ℚ × String) :
    CandidateOutcome :=
  match decode cand.1 with
  | .procFailed => .ffmpegFailed
  | .unreadable => .unreadableFrame
  | .ok frame =>
    let trimmed := trimAndAddBorder frame borderPx 10 includeText
    match rejectionReason trimmed minPhotoArea with
    | some reason => .rejected reason
    | none => .savedFile (filenameSafe ++ "_" ++ cand.2 ++ ".jpg")

/-- `extract_fullres_frames`: fold over the candidates in order, recording
one outcome per candidate and counting saves. Every per-candidate failure is
absorbed as an outcome (`continue`), never a raised error; the function
returns the saved count together with the per-candidate log. -/
def extractFullresFrames (decode : ℚ → DecodeResult) (filenameSafe : String)
    (candidates : List (ℚ × String)) (borderPx minPhotoArea : ℕ)
    (includeText : Bool) : ℕ × List CandidateOutcome :=
  candidates.foldl
    (fun acc cand =>
      let out := processCandidate decode filenameSafe borderPx minPhotoArea includeText cand
      (acc.1 + if isSavedOutcome out then 1 else 0, acc.2 ++ [out]))
    (0, [])

/-! ### Concrete test images -/

/-- A four-quadrant function: value `a`/`b`/`c`/`d` on the top-left /
top-right / bottom-left / bottom-right block, split at row/column `m`. -/
def quadrantFn (m : ℕ) (a b c d : ℚ) : ℕ → ℕ → ℚ := fun i j =>
  if i < m then (if j < m then a else b) else if j < m then c else d

/-- A 1200×1200 solid-color image (all channels 200). -/
def solidImage : Image :=
  .color 1200 1200 (fun _ _ => 200) (fun _ _ => 200) fun _ _ => 200

/-- The blue channel of the 1200×1200 four-flat-block image
(quadrant colors BGR: blue, green, red, magenta). -/
def fourBlockB : ℕ → ℕ → ℚ := quadrantFn 600 255 0 0 255

/-- The green channel of the four-flat-block image. -/
def fourBlockG : ℕ → ℕ → ℚ := quadrantFn 600 0 255 0 0

/-- The red channel of the four-flat-block image. -/
def fourBlockR : ℕ → ℕ → ℚ := quadrantFn 600 0 0 255 255

/-- A 1200×1200 image made of four flat color blocks (blue, green, red,
magenta), the classic synthetic "screenshot" with 4 quantized colors. -/
def fourBlockImage : Image := .color 1200 1200 fourBlockB fourBlockG fourBlockR

/-- A deterministic high-variance "noise" texture standing in for the
spec's random-noise image: a fine 40/160 checkerboard (grayscale std 60,
far above every uniformity threshold, and equal on all three channels so
the screenshot classifier's grayscale early-out accepts it). -/
def noisePix : ℕ → ℕ → ℚ := fun i j => if (i + j) % 2 = 0 then 40 else 160

/-- The 1200×1200 noise image (all three channels `noisePix`). -/
def noiseImage : Image := .color 1200 1200 noisePix noisePix noisePix

/-- A 12×12 grayscale frame that looks like a photo to the scanner: four
255-valued pixels in the centre 2×2 region, zeros elsewhere (uniform
5-pixel border strips, overall variance well above 25). -/
def photoFramePix : ℕ → ℕ → ℚ := fun i j =>
  if 5 ≤ i ∧ i ≤ 6 ∧ 5 ≤ j ∧ j ≤ 6 then 255 else 0

/-- The photo-like scanner test frame. -/
def photoFrame : Image := .gray 12 12 photoFramePix

/-- A 12×12 grayscale frame of ordinary video content: a full 0/255
checkerboard, so every border strip has high variance. -/
def videoFrame : Image := .gray 12 12 fun i j => if (i + j) % 2 = 0 then 0 else 255

/-- A small uniform grayscale image (identity test for the trimmer). -/
def uniformImage : Image := .gray 3 4 fun _ _ => 7

/-- A small constant grayscale image (hash test). -/
def constImage : Image := .gray 2 3 fun _ _ => 5

/-- A 1×1 all-white color image (white-background screenshot test). -/
def whiteImage : Image :=
  .color 1 1 (fun _ _ => 255) (fun _ _ => 255) fun _ _ => 255

/-- A 1×1 grayscale image (single-channel screenshot bypass test). -/
def tinyGrayImage : Image := .gray 1 1 fun _ _ => 0

/-! ### Basic lemmas -/

/-- A hash has zero Hamming distance to itself. -/
theorem hashDifference_self (h : Hash) : hashDifference h h = 0 := by
  unfold hashDifference
  refine Finset.sum_eq_zero fun i _ => Finset.sum_eq_zero fun j _ => ?_
  simp

/-- Hamming distance is symmetric. -/
theorem hashDifference_comm (a b : Hash) : hashDifference a b = hashDifference b a := by
  unfold hashDifference
  refine Finset.sum_congr rfl fun i _ => Finset.sum_congr rfl fun j _ => ?_
  by_cases hab : a i j = b i j <;> simp [hab, Ne, eq_comm]

/-- Generalized accumulator form of the `extract_fullres_frames` fold. -/
theorem extractFold_eq (decode : ℚ → DecodeResult) (filenameSafe : String)
    (borderPx minPhotoArea : ℕ) (includeText : Bool) :
    ∀ (l : List (ℚ × String)) (s0 : ℕ) (log0 : List CandidateOutcome),
      l.foldl
          (fun acc cand =>
            let out := processCandidate decode filenameSafe borderPx minPhotoArea includeText cand
            (acc.1 + if isSavedOutcome out then 1 else 0, acc.2 ++ [out]))
          (s0, log0) =
        (s0 + ((l.map (processCandidate decode filenameSafe borderPx minPhotoArea includeText)).filter
            isSavedOutcome).length,
          log0 ++ l.map (processCandidate decode filenameSafe borderPx minPhotoArea includeText)) := by
  intro l
  induction l with
  | nil => intro s0 log0; simp
  | cons c l ih =>
    intro s0 log0
    simp only [List.foldl_cons, List.map_cons, ih, List.filter_cons]
    by_cases hc : isSavedOutcome (processCandidate decode filenameSafe borderPx minPhotoArea includeText c)
    · simp [hc, List.append_assoc, Nat.add_comm, Nat.add_assoc, Nat.add_left_comm]
    · simp [hc, List.append_assoc]

/-- Splitting a filtered length over a boolean predicate and its negation. -/
theorem length_filter_add_length_filter_not {α : Type} (p : α → Bool) (l : List α) :
    (l.filter p).length + (l.filter fun a => !p a).length = l.length := by
  induction l with
  | nil => simp
  | cons a l ih =>
    by_cases ha : p a <;> simp [List.filter_cons, ha, ← ih] <;> omega

/-- `INTER_AREA` weights are nonnegative. -/
theorem overlapLen_nonneg (a b : ℚ) (r : ℕ) : 0 ≤ overlapLen a b r := le_max_left _ _

/-- The overlap length telescopes through the clamp `x ↦ max a (min b x)`. -/
theorem overlapLen_eq_clamp (a b : ℚ) (r : ℕ) (_h0 : 0 ≤ a) (hab : a ≤ b) :
    overlapLen a b r = max a (min b ((r : ℚ) + 1)) - max a (min b (r : ℚ)) := by
  unfold overlapLen
  rcases le_total b (r : ℚ) with hbr | hbr
  · have h1 : min ((r:ℚ)+1) b = b := min_eq_right (by linarith)
    have h2 : min b ((r:ℚ)+1) = b := min_eq_left (by linarith)
    have h3 : min b (r:ℚ) = b := min_eq_left hbr
    rw [h1, h2, h3, sub_self]
    apply max_eq_left
    have h4 : (r:ℚ) ≤ max (r:ℚ) a := le_max_left _ _
    linarith
  · rcases le_total ((r:ℚ)+1) a with hra | hra
    · have h2 : min b ((r:ℚ)+1) = (r:ℚ)+1 := min_eq_right (by linarith)
      have h3 : max a ((r:ℚ)+1) = a := max_eq_left hra
      have h4 : min b (r:ℚ) = (r:ℚ) := min_eq_right (by linarith)
      have h5 : max a (r:ℚ) = a := max_eq_left (by linarith)
      rw [h2, h3, h4, h5, sub_self]
      apply max_eq_left
      have h6 : min ((r:ℚ)+1) b ≤ (r:ℚ)+1 := min_le_left _ _
      have h7 : a ≤ max (r:ℚ) a := le_max_right _ _
      linarith
    · have h4 : min b (r:ℚ) = (r:ℚ) := min_eq_right hbr
      rcases le_total b ((r:ℚ)+1) with hb1 | hb1
      · have h1 : min ((r:ℚ)+1) b = b := min_eq_right hb1
        have h2 : min b ((r:ℚ)+1) = b := min_eq_left hb1
        have h5 : max a b = b := max_eq_right hab
        rw [h1, h2, h4, h5]
        have h6 : max (r:ℚ) a ≤ b := max_le hbr hab
        rw [max_eq_right (by linarith), max_comm]
      · have h1 : min ((r:ℚ)+1) b = (r:ℚ)+1 := min_eq_left hb1
        have h2 : min b ((r:ℚ)+1) = (r:ℚ)+1 := min_eq_right hb1
        have h3 : max a ((r:ℚ)+1) = (r:ℚ)+1 := max_eq_right hra
        rw [h1, h2, h3, h4]
        have h6 : max (r:ℚ) a ≤ (r:ℚ)+1 := max_le (by linarith) hra
        rw [max_eq_right (by linarith), max_comm]

/-- The `INTER_AREA` weights of one output cell sum to the cell length:
the overlaps of `[a,b] ⊆ [0,n]` with the unit cells partition `[a,b]`. -/
theorem sum_overlapLen (a b : ℚ) (n : ℕ) (h0 : 0 ≤ a) (hab : a ≤ b) (hbn : b ≤ (n : ℚ)) :
    ∑ r ∈ Finset.range n, overlapLen a b r = b - a := by
  have hpt : ∀ r ∈ Finset.range n, overlapLen a b r =
      (fun x : ℕ => max a (min b (x : ℚ))) (r + 1) - (fun x : ℕ => max a (min b (x : ℚ))) r := by
    intro r _
    rw [overlapLen_eq_clamp a b r h0 hab]
    push_cast
    ring_nf
  rw [Finset.sum_congr rfl hpt, Finset.sum_range_sub (fun x : ℕ => max a (min b (x : ℚ))) n]
  have h1 : min b ((n : ℕ) : ℚ) = b := min_eq_left hbn
  have h2 : max a b = b := max_eq_right hab
  have h3 : min b ((0 : ℕ) : ℚ) = 0 := min_eq_right (by push_cast; linarith)
  have h4 : max a 0 = a := max_eq_left h0
  simp only [h1, h2]
  rw [show (((0:ℕ)):ℚ) = 0 by norm_num] at h3
  simp only [Nat.cast_zero, h3, h4]

/-- A unit cell carrying nonzero weight intersects the open cell `(a-1, b)`. -/
theorem overlapLen_ne_zero_bounds (a b : ℚ) (r : ℕ) (h : overlapLen a b r ≠ 0) :
    (r : ℚ) < b ∧ a < (r : ℚ) + 1 := by
  have hpos : max (r:ℚ) a < min ((r:ℚ)+1) b := by
    by_contra hle
    push_neg at hle
    apply h
    unfold overlapLen
    exact max_eq_left (by linarith)
  constructor
  · calc (r:ℚ) ≤ max (r:ℚ) a := le_max_left _ _
      _ < min ((r:ℚ)+1) b := hpos
      _ ≤ b := min_le_right _ _
  · calc a ≤ max (r:ℚ) a := le_max_right _ _
      _ < min ((r:ℚ)+1) b := hpos
      _ ≤ (r:ℚ)+1 := min_le_left _ _

/-- The weights of output cell `k` out of `m` over `n` source cells sum to
the scale factor `n/m`. -/
theorem sum_overlapLen_scale (n m k : ℕ) (hm : 0 < m) (hn : 0 < n) (hk : k < m) :
    ∑ r ∈ Finset.range n, overlapLen ((k : ℚ) * ((n : ℚ) / (m : ℚ)))
      (((k : ℚ) + 1) * ((n : ℚ) / (m : ℚ))) r = (n : ℚ) / (m : ℚ) := by
  have hm0 : (0 : ℚ) < (m : ℚ) := by exact_mod_cast hm
  have hs : 0 ≤ (n : ℚ) / (m : ℚ) := div_nonneg (by positivity) (by positivity)
  have h1 : 0 ≤ (k : ℚ) * ((n : ℚ) / (m : ℚ)) := mul_nonneg (by positivity) hs
  have h2 : (k : ℚ) * ((n : ℚ) / (m : ℚ)) ≤ ((k : ℚ) + 1) * ((n : ℚ) / (m : ℚ)) :=
    mul_le_mul_of_nonneg_right (by linarith) hs
  have h3 : ((k : ℚ) + 1) * ((n : ℚ) / (m : ℚ)) ≤ (n : ℚ) := by
    have hkm : (k : ℚ) + 1 ≤ (m : ℚ) := by exact_mod_cast hk
    have hmul := mul_le_mul_of_nonneg_right hkm hs
    calc ((k : ℚ) + 1) * ((n : ℚ) / (m : ℚ)) ≤ (m : ℚ) * ((n : ℚ) / (m : ℚ)) := hmul
      _ = (n : ℚ) := by field_simp
  rw [sum_overlapLen _ _ _ h1 h2 h3]
  ring

/-- An `INTER_AREA` output pixel whose supporting source pixels all equal
`v` equals `v`. -/
theorem resizePix_const (A : GrayImg) (oh ow i j : ℕ) (v : ℚ)
    (hh : 0 < A.h) (hw : 0 < A.w) (hoh : 0 < oh) (how : 0 < ow)
    (hi : i < oh) (hj : j < ow)
    (hsupp : ∀ r c, r < A.h → c < A.w →
      overlapLen ((i : ℚ) * ((A.h : ℚ) / (oh : ℚ))) (((i : ℚ) + 1) * ((A.h : ℚ) / (oh : ℚ))) r ≠ 0 →
      overlapLen ((j : ℚ) * ((A.w : ℚ) / (ow : ℚ))) (((j : ℚ) + 1) * ((A.w : ℚ) / (ow : ℚ))) c ≠ 0 →
      A.pix r c = v) :
    resizePix A oh ow i j = v := by
  have hsy : (0 : ℚ) < (A.h : ℚ) / (oh : ℚ) := by
    apply div_pos <;> exact_mod_cast (by assumption)
  have hsx : (0 : ℚ) < (A.w : ℚ) / (ow : ℚ) := by
    apply div_pos <;> exact_mod_cast (by assumption)
  unfold resizePix
  have hcongr : (∑ r ∈ Finset.range A.h, ∑ c ∈ Finset.range A.w,
      overlapLen ((i : ℚ) * ((A.h : ℚ) / (oh : ℚ))) (((i : ℚ) + 1) * ((A.h : ℚ) / (oh : ℚ))) r *
        overlapLen ((j : ℚ) * ((A.w : ℚ) / (ow : ℚ))) (((j : ℚ) + 1) * ((A.w : ℚ) / (ow : ℚ))) c *
        A.pix r c) =
      (∑ r ∈ Finset.range A.h,
        overlapLen ((i : ℚ) * ((A.h : ℚ) / (oh : ℚ))) (((i : ℚ) + 1) * ((A.h : ℚ) / (oh : ℚ))) r) *
      ((∑ c ∈ Finset.range A.w,
        overlapLen ((j : ℚ) * ((A.w : ℚ) / (ow : ℚ))) (((j : ℚ) + 1) * ((A.w : ℚ) / (ow : ℚ))) c) * v) := by
    rw [Finset.sum_mul]
    refine Finset.sum_congr rfl fun r hr => ?_
    rw [Finset.sum_mul, Finset.mul_sum]
    refine Finset.sum_congr rfl fun c hc => ?_
    by_cases h1 : overlapLen ((i : ℚ) * ((A.h : ℚ) / (oh : ℚ)))
        (((i : ℚ) + 1) * ((A.h : ℚ) / (oh : ℚ))) r = 0
    · rw [h1]; ring
    by_cases h2 : overlapLen ((j : ℚ) * ((A.w : ℚ) / (ow : ℚ)))
        (((j : ℚ) + 1) * ((A.w : ℚ) / (ow : ℚ))) c = 0
    · rw [h2]; ring
    rw [hsupp r c (Finset.mem_range.1 hr) (Finset.mem_range.1 hc) h1 h2]
    ring
  rw [hcongr, sum_overlapLen_scale A.h oh i hoh hh hi, sum_overlapLen_scale A.w ow j how hw hj]
  field_simp
  ring

/-- An `INTER_AREA` output pixel of an image bounded above by `B` is
bounded by `B` (the output is a weighted average). -/
theorem resizePix_le (A : GrayImg) (oh ow i j : ℕ) (B : ℚ)
    (hh : 0 < A.h) (hw : 0 < A.w) (hoh : 0 < oh) (how : 0 < ow)
    (hi : i < oh) (hj : j < ow)
    (hle : ∀ r c, r < A.h → c < A.w → A.pix r c ≤ B) :
    resizePix A oh ow i j ≤ B := by
  have hsy : (0 : ℚ) < (A.h : ℚ) / (oh : ℚ) := by
    apply div_pos <;> exact_mod_cast (by assumption)
  have hsx : (0 : ℚ) < (A.w : ℚ) / (ow : ℚ) := by
    apply div_pos <;> exact_mod_cast (by assumption)
  unfold resizePix
  rw [div_le_iff₀ (by positivity)]
  have hstep : (∑ r ∈ Finset.range A.h, ∑ c ∈ Finset.range A.w,
      overlapLen ((i : ℚ) * ((A.h : ℚ) / (oh : ℚ))) (((i : ℚ) + 1) * ((A.h : ℚ) / (oh : ℚ))) r *
        overlapLen ((j : ℚ) * ((A.w : ℚ) / (ow : ℚ))) (((j : ℚ) + 1) * ((A.w : ℚ) / (ow : ℚ))) c *
        A.pix r c) ≤
      (∑ r ∈ Finset.range A.h,
        overlapLen ((i : ℚ) * ((A.h : ℚ) / (oh : ℚ))) (((i : ℚ) + 1) * ((A.h : ℚ) / (oh : ℚ))) r) *
      ((∑ c ∈ Finset.range A.w,
        overlapLen ((j : ℚ) * ((A.w : ℚ) / (ow : ℚ))) (((j : ℚ) + 1) * ((A.w : ℚ) / (ow : ℚ))) c) * B) := by
    rw [Finset.sum_mul]
    refine Finset.sum_le_sum fun r hr => ?_
    rw [Finset.sum_mul, Finset.mul_sum]
    refine Finset.sum_le_sum fun c hc => ?_
    have hnn : 0 ≤ overlapLen ((i : ℚ) * ((A.h : ℚ) / (oh : ℚ)))
        (((i : ℚ) + 1) * ((A.h : ℚ) / (oh : ℚ))) r *
        overlapLen ((j : ℚ) * ((A.w : ℚ) / (ow : ℚ))) (((j : ℚ) + 1) * ((A.w : ℚ) / (ow : ℚ))) c :=
      mul_nonneg (overlapLen_nonneg _ _ _) (overlapLen_nonneg _ _ _)
    calc _ ≤ overlapLen ((i : ℚ) * ((A.h : ℚ) / (oh : ℚ)))
          (((i : ℚ) + 1) * ((A.h : ℚ) / (oh : ℚ))) r *
          overlapLen ((j : ℚ) * ((A.w : ℚ) / (ow : ℚ))) (((j : ℚ) + 1) * ((A.w : ℚ) / (ow : ℚ))) c * B :=
        mul_le_mul_of_nonneg_left (hle r c (Finset.mem_range.1 hr) (Finset.mem_range.1 hc)) hnn
      _ = _ := by ring
  calc _ ≤ _ := hstep
    _ = B * ((A.h : ℚ) / (oh : ℚ) * ((A.w : ℚ) / (ow : ℚ))) := by
        rw [sum_overlapLen_scale A.h oh i hoh hh hi, sum_overlapLen_scale A.w ow j how hw hj]
        ring

/-- Sum of a two-valued step function over an initial segment. -/
theorem sum_ite_lt (n m : ℕ) (a b : ℚ) (h : m ≤ n) :
    ∑ j ∈ Finset.range n, (if j < m then a else b) = m * a + ((n : ℚ) - m) * b := by
  induction n with
  | zero =>
    have hm : m = 0 := by omega
    subst hm
    simp
  | succ n ih =>
    rw [Finset.sum_range_succ]
    by_cases hm : m ≤ n
    · rw [ih hm, if_neg (by omega)]
      push_cast
      ring
    · have hmeq : m = n + 1 := by omega
      subst hmeq
      rw [if_pos (by omega)]
      have hall : ∑ j ∈ Finset.range n, (if j < n + 1 then a else b) =
          ∑ _j ∈ Finset.range n, a :=
        Finset.sum_congr rfl fun j hj => if_pos (by
          have := Finset.mem_range.1 hj
          omega)
      rw [hall, Finset.sum_const, Finset.card_range]
      push_cast
      ring

/-- Sum of a four-quadrant function over an `n × n` grid split at `m`. -/
theorem sum_quadrant (n m : ℕ) (hm : m ≤ n) (a b c d : ℚ) :
    ∑ i ∈ Finset.range n, ∑ j ∈ Finset.range n, quadrantFn m a b c d i j =
      (m : ℚ) * m * a + (m : ℚ) * ((n : ℚ) - m) * b + ((n : ℚ) - m) * m * c +
        ((n : ℚ) - m) * ((n : ℚ) - m) * d := by
  have hinner : ∀ i ∈ Finset.range n, (∑ j ∈ Finset.range n, quadrantFn m a b c d i j) =
      if i < m then ((m : ℚ) * a + ((n : ℚ) - m) * b)
      else ((m : ℚ) * c + ((n : ℚ) - m) * d) := by
    intro i _
    unfold quadrantFn
    by_cases hi : i < m
    · simp only [if_pos hi]
      exact sum_ite_lt n m a b hm
    · simp only [if_neg hi]
      exact sum_ite_lt n m c d hm
  rw [Finset.sum_congr rfl hinner, sum_ite_lt n m _ _ hm]
  ring

/-- `INTER_AREA` downscaling of a 1200×1200 four-quadrant image (split at
600) to 128×128 yields the four-quadrant image split at 64: every output
cell's support lies inside one quadrant because 64 · (1200/128) = 600. -/
theorem resizePix_quadrant (a b c d : ℚ) (i j : ℕ) (hi : i < 128) (hj : j < 128) :
    resizePix ⟨1200, 1200, quadrantFn 600 a b c d⟩ 128 128 i j =
      quadrantFn 64 a b c d i j := by
  have key : ∀ (k r : ℕ), overlapLen ((k : ℚ) * ((1200 : ℚ) / (128 : ℚ)))
      (((k : ℚ) + 1) * ((1200 : ℚ) / (128 : ℚ))) r ≠ 0 →
      (k < 64 → r < 600) ∧ (64 ≤ k → 600 ≤ r) := by
    intro k r hne
    obtain ⟨h1, h2⟩ := overlapLen_ne_zero_bounds _ _ _ hne
    constructor
    · intro hk64
      have hk : ((k : ℚ) + 1) ≤ 64 := by exact_mod_cast hk64
      have hb : ((k : ℚ) + 1) * ((1200 : ℚ) / (128 : ℚ)) ≤ 600 := by nlinarith
      have hr : (r : ℚ) < 600 := lt_of_lt_of_le h1 hb
      exact_mod_cast hr
    · intro hk64
      have hk : (64 : ℚ) ≤ (k : ℚ) := by exact_mod_cast hk64
      have ha : (600 : ℚ) ≤ (k : ℚ) * ((1200 : ℚ) / (128 : ℚ)) := by nlinarith
      have hr : (600 : ℚ) < (r : ℚ) + 1 := lt_of_le_of_lt ha h2
      have hr' : (600 : ℕ) < r + 1 := by exact_mod_cast hr
      omega
  have happ : ∀ v : ℚ, (∀ r0 c0, r0 < 1200 → c0 < 1200 →
      overlapLen ((i : ℚ) * ((1200 : ℚ) / (128 : ℚ)))
        (((i : ℚ) + 1) * ((1200 : ℚ) / (128 : ℚ))) r0 ≠ 0 →
      overlapLen ((j : ℚ) * ((1200 : ℚ) / (128 : ℚ)))
        (((j : ℚ) + 1) * ((1200 : ℚ) / (128 : ℚ))) c0 ≠ 0 →
      quadrantFn 600 a b c d r0 c0 = v) →
      resizePix ⟨1200, 1200, quadrantFn 600 a b c d⟩ 128 128 i j = v := by
    intro v hs
    apply resizePix_const ⟨1200, 1200, quadrantFn 600 a b c d⟩ 128 128 i j v
      (by norm_num) (by norm_num) (by norm_num) (by norm_num) hi hj
    intro r0 c0 hr0 hc0 hwr hwc
    have hr' : r0 < 1200 := hr0
    have hc' : c0 < 1200 := hc0
    refine hs r0 c0 hr' hc' ?_ ?_
    · have hcast : ((1200 : ℕ) : ℚ) / ((128 : ℕ) : ℚ) = (1200 : ℚ) / (128 : ℚ) := by
        norm_num
      simpa [hcast] using hwr
    · have hcast : ((1200 : ℕ) : ℚ) / ((128 : ℕ) : ℚ) = (1200 : ℚ) / (128 : ℚ) := by
        norm_num
      simpa [hcast] using hwc
  by_cases hi64 : i < 64 <;> by_cases hj64 : j < 64
  · rw [show quadrantFn 64 a b c d i j = a from by simp [quadrantFn, hi64, hj64]]
    refine happ a fun r0 c0 _ _ hwr hwc => ?_
    have h1 := (key i r0 hwr).1 hi64
    have h2 := (key j c0 hwc).1 hj64
    simp [quadrantFn, h1, h2]
  · rw [show quadrantFn 64 a b c d i j = b from by simp [quadrantFn, hi64, hj64]]
    refine happ b fun r0 c0 _ _ hwr hwc => ?_
    have h1 := (key i r0 hwr).1 hi64
    have h2 := (key j c0 hwc).2 (by omega)
    simp [quadrantFn, h1, show ¬c0 < 600 by omega]
  · rw [show quadrantFn 64 a b c d i j = c from by simp [quadrantFn, hi64, hj64]]
    refine happ c fun r0 c0 _ _ hwr hwc => ?_
    have h1 := (key i r0 hwr).2 (by omega)
    have h2 := (key j c0 hwc).1 hj64
    simp [quadrantFn, show ¬r0 < 600 by omega, h2]
  · rw [show quadrantFn 64 a b c d i j = d from by simp [quadrantFn, hi64, hj64]]
    refine happ d fun r0 c0 _ _ hwr hwc => ?_
    have h1 := (key i r0 hwr).2 (by omega)
    have h2 := (key j c0 hwc).2 (by omega)
    simp [quadrantFn, show ¬r0 < 600 by omega, show ¬c0 < 600 by omega]

/-- The scanner loop stops when the current index reaches the frame count. -/
theorem scanLoop_stop (frames : ℕ → Option Image) (total step : ℕ) (fps : ℚ)
    (cur : ℕ) (p s : Option Hash) (acc : List (ℚ × String))
    (h : ¬(cur < total ∧ 1 ≤ step)) :
    scanLoop frames total step fps cur p s acc = acc := by
  rw [scanLoop, dif_neg h]

/-- One scanner iteration on a photo-like frame (border test passes and the
frame is not near-uniform): hash the frame, append a candidate exactly when
`is_new_photo`, update the photo hash on a new photo, and always carry the
step hash. -/
theorem scanLoop_step_photo (frames : ℕ → Option Image) (total step : ℕ) (fps : ℚ)
    (cur : ℕ) (p s : Option Hash) (acc : List (ℚ × String)) (f : Image)
    (hc : cur < total) (hs : 1 ≤ step) (hf : frames cur = some f)
    (hcond : detectAlmostUniformBorders f 5 5 1 = true ∧ isNearUniform f 5 = none) :
    scanLoop frames total step fps cur p s acc =
      scanLoop frames total step fps (cur + step)
        (if isNewPhotoB p s (computeFrameHash f) then some (computeFrameHash f) else p)
        (some (computeFrameHash f))
        (if isNewPhotoB p s (computeFrameHash f) then
          acc ++ [(tsOf fps cur, timeStrOf (tsOf fps cur))]
        else acc) := by
  rw [scanLoop, dif_pos ⟨hc, hs⟩, hf]
  dsimp only
  rw [if_pos hcond]

/-- One scanner iteration on a non-photo frame: both hash states reset. -/
theorem scanLoop_step_reset (frames : ℕ → Option Image) (total step : ℕ) (fps : ℚ)
    (cur : ℕ) (p s : Option Hash) (acc : List (ℚ × String)) (f : Image)
    (hc : cur < total) (hs : 1 ≤ step) (hf : frames cur = some f)
    (hcond : ¬(detectAlmostUniformBorders f 5 5 1 = true ∧ isNearUniform f 5 = none)) :
    scanLoop frames total step fps cur p s acc =
      scanLoop frames total step fps (cur + step) none none acc := by
  rw [scanLoop, dif_pos ⟨hc, hs⟩, hf]
  dsimp only
  rw [if_neg hcond]

/-- A photo-like iteration where `is_new_photo` holds: record a candidate
and set both hash states to the current hash. -/
theorem scanLoop_step_photo_new (frames : ℕ → Option Image) (total step : ℕ) (fps : ℚ)
    (cur : ℕ) (p s : Option Hash) (acc : List (ℚ × String)) (f : Image)
    (hc : cur < total) (hs : 1 ≤ step) (hf : frames cur = some f)
    (hcond : detectAlmostUniformBorders f 5 5 1 = true ∧ isNearUniform f 5 = none)
    (hnew : isNewPhotoB p s (computeFrameHash f) = true) :
    scanLoop frames total step fps cur p s acc =
      scanLoop frames total step fps (cur + step) (some (computeFrameHash f))
        (some (computeFrameHash f)) (acc ++ [(tsOf fps cur, timeStrOf (tsOf fps cur))]) := by
  rw [scanLoop_step_photo frames total step fps cur p s acc f hc hs hf hcond, hnew]
  simp

/-- A photo-like iteration where `is_new_photo` fails: no candidate, the
photo hash is kept, the step hash becomes the current hash. -/
theorem scanLoop_step_photo_old (frames : ℕ → Option Image) (total step : ℕ) (fps : ℚ)
    (cur : ℕ) (p s : Option Hash) (acc : List (ℚ × String)) (f : Image)
    (hc : cur < total) (hs : 1 ≤ step) (hf : frames cur = some f)
    (hcond : detectAlmostUniformBorders f 5 5 1 = true ∧ isNearUniform f 5 = none)
    (hnew : isNewPhotoB p s (computeFrameHash f) = false) :
    scanLoop frames total step fps cur p s acc =
      scanLoop frames total step fps (cur + step) p (some (computeFrameHash f)) acc := by
  rw [scanLoop_step_photo frames total step fps cur p s acc f hc hs hf hcond, hnew]
  simp

/-- Two small step-to-step / first-detection facts give `is_new_photo = false`. -/
theorem isNewPhotoB_eq_false (hp hs' hcur : Hash)
    (h1 : hashDifference hcur hs' ≤ 3) (h2 : hashDifference hcur hp ≤ 3) :
    isNewPhotoB (some hp) (some hs') hcur = false := by
  simp only [isNewPhotoB, stepChangedB, HASH_STEP_THRESHOLD, HASH_DIFF_THRESHOLD,
    Bool.or_eq_false_iff, decide_eq_false_iff_not, not_lt]
  exact ⟨h1, le_trans h2 (by norm_num)⟩

/-- The 1200×1200 solid image is rejected as near-uniform: its grayscale
variance is zero. -/
theorem solid_near_uniform : isNearUniform solidImage 5 = some "near-uniform frame" := by
  have hpt : ∀ i j : ℕ, (toGray solidImage).pix i j = 200 := by
    intro i j
    show bgr2gray 200 200 200 = 200
    norm_num [bgr2gray]
  have hmean : meanPix (toGray solidImage) = 200 := by
    unfold meanPix sumPix gridSum
    rw [Finset.sum_congr rfl fun i _ => Finset.sum_congr rfl fun j _ => hpt i j]
    simp only [Finset.sum_const, Finset.card_range, nsmul_eq_mul]
    norm_num [toGray, solidImage]
  have hvar : varPix (toGray solidImage) = 0 := by
    unfold varPix gridSum
    rw [hmean]
    have hz : (∑ i ∈ Finset.range (toGray solidImage).h,
        ∑ j ∈ Finset.range (toGray solidImage).w,
          (fun i j => ((toGray solidImage).pix i j - 200) ^ 2) i j) = 0 :=
      Finset.sum_eq_zero fun i _ => Finset.sum_eq_zero fun j _ => by simp [hpt]
    rw [hz]
    simp
  unfold isNearUniform
  exact if_pos ⟨by norm_num, by rw [hvar]; norm_num⟩

/-- The grayscale of the four-block image, pointwise: the four quadrant
gray levels of blue, green, red and magenta. -/
theorem fourBlock_gray_pt : ∀ i j : ℕ, (toGray fourBlockImage).pix i j =
    quadrantFn 600 (29070 / 1000) (149685 / 1000) (76245 / 1000) (105315 / 1000) i j := by
  intro i j
  show bgr2gray (fourBlockB i j) (fourBlockG i j) (fourBlockR i j) = _
  unfold fourBlockB fourBlockG fourBlockR quadrantFn
  by_cases h1 : i < 600 <;> by_cases h2 : j < 600 <;>
    simp only [if_pos, if_neg, h1, h2, ite_true, ite_false] <;> norm_num [bgr2gray]

/-- Mean gray level of the four-block image. -/
theorem fourBlock_mean : meanPix (toGray fourBlockImage) = 360315 / 4000 := by
  unfold meanPix sumPix gridSum
  rw [Finset.sum_congr rfl fun i _ => Finset.sum_congr rfl fun j _ => fourBlock_gray_pt i j]
  show (∑ i ∈ Finset.range 1200, ∑ j ∈ Finset.range 1200,
    quadrantFn 600 (29070 / 1000) (149685 / 1000) (76245 / 1000) (105315 / 1000) i j) /
      (((1200 : ℕ) : ℚ) * ((1200 : ℕ) : ℚ)) = 360315 / 4000
  rw [sum_quadrant 1200 600 (by norm_num)]
  norm_num

/-- The four-block image is not near-uniform: its grayscale variance is far
above 25. -/
theorem fourBlock_not_near_uniform : isNearUniform fourBlockImage 5 = none := by
  have hvar : varPix (toGray fourBlockImage) =
      ((29070 / 1000 - 360315 / 4000) ^ 2 + (149685 / 1000 - 360315 / 4000) ^ 2 +
        (76245 / 1000 - 360315 / 4000) ^ 2 + (105315 / 1000 - 360315 / 4000) ^ 2) / 4 := by
    unfold varPix gridSum
    rw [fourBlock_mean]
    have hpt2 : ∀ i ∈ Finset.range (toGray fourBlockImage).h,
        ∀ j ∈ Finset.range (toGray fourBlockImage).w,
        (fun i j => ((toGray fourBlockImage).pix i j - 360315 / 4000) ^ 2) i j =
          quadrantFn 600 ((29070 / 1000 - 360315 / 4000) ^ 2)
            ((149685 / 1000 - 360315 / 4000) ^ 2) ((76245 / 1000 - 360315 / 4000) ^ 2)
            ((105315 / 1000 - 360315 / 4000) ^ 2) i j := by
      intro i _ j _
      show ((toGray fourBlockImage).pix i j - 360315 / 4000) ^ 2 = _
      rw [fourBlock_gray_pt i j]
      unfold quadrantFn
      by_cases h1 : i < 600 <;> by_cases h2 : j < 600 <;> simp [h1, h2]
    rw [Finset.sum_congr rfl fun i hi => Finset.sum_congr rfl fun j hj => hpt2 i hi j hj]
    show (∑ i ∈ Finset.range 1200, ∑ j ∈ Finset.range 1200, quadrantFn 600 _ _ _ _ i j) /
      (((1200 : ℕ) : ℚ) * ((1200 : ℕ) : ℚ)) = _
    rw [sum_quadrant 1200 600 (by norm_num)]
    norm_num
  unfold isNearUniform
  rw [if_neg]
  rintro ⟨-, hlt⟩
  rw [hvar] at hlt
  norm_num at hlt

set_option maxRecDepth 4000 in
/-- The four-block image is classified as a screenshot with exactly 4
quantized unique colors: the downscale maps the four 600×600 blocks onto
four 64×64 blocks, no block is near-white, the channels differ strongly
(mean channel difference 170), and the quantized palette has 4 entries. -/
theorem fourBlock_screenshot : isScreenshot fourBlockImage 100 128 =
    some "screenshot (4 unique colors)" := by
  have hrB : ∀ i j, i < 128 → j < 128 →
      (resize ⟨1200, 1200, fourBlockB⟩ 128 128).pix i j = quadrantFn 64 255 0 0 255 i j :=
    fun i j hi hj => resizePix_quadrant 255 0 0 255 i j hi hj
  have hrG : ∀ i j, i < 128 → j < 128 →
      (resize ⟨1200, 1200, fourBlockG⟩ 128 128).pix i j = quadrantFn 64 0 255 0 0 i j :=
    fun i j hi hj => resizePix_quadrant 0 255 0 0 i j hi hj
  have hrR : ∀ i j, i < 128 → j < 128 →
      (resize ⟨1200, 1200, fourBlockR⟩ 128 128).pix i j = quadrantFn 64 0 0 255 255 i j :=
    fun i j hi hj => resizePix_quadrant 0 0 255 255 i j hi hj
  have hwc : screenshotWhiteCount 1200 1200 fourBlockB fourBlockG fourBlockR 128 = 0 := by
    simp only [screenshotWhiteCount]
    refine Finset.sum_eq_zero fun i hi => Finset.sum_eq_zero fun j hj => ?_
    have hi' := Finset.mem_range.1 hi
    have hj' := Finset.mem_range.1 hj
    rw [hrB i j hi' hj', hrG i j hi' hj', hrR i j hi' hj']
    unfold quadrantFn
    by_cases h1 : i < 64 <;> by_cases h2 : j < 64 <;>
      norm_num [h1, h2, bgr2gray]
  have hwp : ¬30 < screenshotWhitePct 1200 1200 fourBlockB fourBlockG fourBlockR 128 := by
    unfold screenshotWhitePct
    rw [hwc]
    norm_num
  have hS1 : (∑ i ∈ Finset.range 128, ∑ j ∈ Finset.range 128,
      |(resize ⟨1200, 1200, fourBlockB⟩ 128 128).pix i j -
        (resize ⟨1200, 1200, fourBlockG⟩ 128 128).pix i j|) = 4096 * 765 := by
    have hpt : ∀ i ∈ Finset.range 128, ∀ j ∈ Finset.range 128,
        |(resize ⟨1200, 1200, fourBlockB⟩ 128 128).pix i j -
          (resize ⟨1200, 1200, fourBlockG⟩ 128 128).pix i j| =
          quadrantFn 64 255 255 0 255 i j := by
      intro i hi j hj
      rw [hrB i j (Finset.mem_range.1 hi) (Finset.mem_range.1 hj),
        hrG i j (Finset.mem_range.1 hi) (Finset.mem_range.1 hj)]
      unfold quadrantFn
      by_cases h1 : i < 64 <;> by_cases h2 : j < 64 <;> simp only [h1, h2, ite_true,
        ite_false, if_pos, if_neg, not_false_iff] <;>
        rw [abs_eq (by norm_num : (0:ℚ) ≤ _)] <;> norm_num
    rw [Finset.sum_congr rfl fun i hi => Finset.sum_congr rfl fun j hj => hpt i hi j hj,
      sum_quadrant 128 64 (by norm_num)]
    norm_num
  have hS2 : (∑ i ∈ Finset.range 128, ∑ j ∈ Finset.range 128,
      |(resize ⟨1200, 1200, fourBlockB⟩ 128 128).pix i j -
        (resize ⟨1200, 1200, fourBlockR⟩ 128 128).pix i j|) = 4096 * 510 := by
    have hpt : ∀ i ∈ Finset.range 128, ∀ j ∈ Finset.range 128,
        |(resize ⟨1200, 1200, fourBlockB⟩ 128 128).pix i j -
          (resize ⟨1200, 1200, fourBlockR⟩ 128 128).pix i j| =
          quadrantFn 64 255 0 255 0 i j := by
      intro i hi j hj
      rw [hrB i j (Finset.mem_range.1 hi) (Finset.mem_range.1 hj),
        hrR i j (Finset.mem_range.1 hi) (Finset.mem_range.1 hj)]
      unfold quadrantFn
      by_cases h1 : i < 64 <;> by_cases h2 : j < 64 <;> simp only [h1, h2, ite_true,
        ite_false, if_pos, if_neg, not_false_iff] <;> simp
    rw [Finset.sum_congr rfl fun i hi => Finset.sum_congr rfl fun j hj => hpt i hi j hj,
      sum_quadrant 128 64 (by norm_num)]
    norm_num
  have hS3 : (∑ i ∈ Finset.range 128, ∑ j ∈ Finset.range 128,
      |(resize ⟨1200, 1200, fourBlockG⟩ 128 128).pix i j -
        (resize ⟨1200, 1200, fourBlockR⟩ 128 128).pix i j|) = 4096 * 765 := by
    have hpt : ∀ i ∈ Finset.range 128, ∀ j ∈ Finset.range 128,
        |(resize ⟨1200, 1200, fourBlockG⟩ 128 128).pix i j -
          (resize ⟨1200, 1200, fourBlockR⟩ 128 128).pix i j| =
          quadrantFn 64 0 255 255 255 i j := by
      intro i hi j hj
      rw [hrG i j (Finset.mem_range.1 hi) (Finset.mem_range.1 hj),
        hrR i j (Finset.mem_range.1 hi) (Finset.mem_range.1 hj)]
      unfold quadrantFn
      by_cases h1 : i < 64 <;> by_cases h2 : j < 64 <;> simp only [h1, h2, ite_true,
        ite_false, if_pos, if_neg, not_false_iff] <;> simp
    rw [Finset.sum_congr rfl fun i hi => Finset.sum_congr rfl fun j hj => hpt i hi j hj,
      sum_quadrant 128 64 (by norm_num)]
    norm_num
  have hmcd : ¬screenshotMeanChannelDiff 1200 1200 fourBlockB fourBlockG fourBlockR 128 < 10 := by
    simp only [screenshotMeanChannelDiff]
    rw [hS1, hS2, hS3]
    norm_num
  have huc : screenshotUniqueColors 1200 1200 fourBlockB fourBlockG fourBlockR 128 = 4 := by
    simp only [screenshotUniqueColors]
    have himg : ((Finset.range 128 ×ˢ Finset.range 128).image fun p : ℕ × ℕ =>
        ⌊(resize ⟨1200, 1200, fourBlockB⟩ 128 128).pix p.1 p.2 / 8⌋ * 1024 +
          ⌊(resize ⟨1200, 1200, fourBlockG⟩ 128 128).pix p.1 p.2 / 8⌋ * 32 +
          ⌊(resize ⟨1200, 1200, fourBlockR⟩ 128 128).pix p.1 p.2 / 8⌋) =
        ({31744, 992, 31, 31775} : Finset ℤ) := by
      apply Finset.Subset.antisymm
      · intro v hv
        rcases Finset.mem_image.1 hv with ⟨p, hp, rfl⟩
        obtain ⟨hp1, hp2⟩ := Finset.mem_product.1 hp
        have h1 := Finset.mem_range.1 hp1
        have h2 := Finset.mem_range.1 hp2
        rw [hrB p.1 p.2 h1 h2, hrG p.1 p.2 h1 h2, hrR p.1 p.2 h1 h2]
        unfold quadrantFn
        by_cases ha : p.1 < 64 <;> by_cases hb : p.2 < 64 <;>
          norm_num [ha, hb, Finset.mem_insert]
      · intro v hv
        simp only [Finset.mem_insert, Finset.mem_singleton] at hv
        rcases hv with rfl | rfl | rfl | rfl
        · refine Finset.mem_image.2 ⟨(0, 0), Finset.mem_product.2
            ⟨Finset.mem_range.2 (by norm_num), Finset.mem_range.2 (by norm_num)⟩, ?_⟩
          rw [hrB 0 0 (by norm_num) (by norm_num), hrG 0 0 (by norm_num) (by norm_num),
            hrR 0 0 (by norm_num) (by norm_num)]
          norm_num [quadrantFn]
        · refine Finset.mem_image.2 ⟨(0, 64), Finset.mem_product.2
            ⟨Finset.mem_range.2 (by norm_num), Finset.mem_range.2 (by norm_num)⟩, ?_⟩
          rw [hrB 0 64 (by norm_num) (by norm_num), hrG 0 64 (by norm_num) (by norm_num),
            hrR 0 64 (by norm_num) (by norm_num)]
          norm_num [quadrantFn]
        · refine Finset.mem_image.2 ⟨(64, 0), Finset.mem_product.2
            ⟨Finset.mem_range.2 (by norm_num), Finset.mem_range.2 (by norm_num)⟩, ?_⟩
          rw [hrB 64 0 (by norm_num) (by norm_num), hrG 64 0 (by norm_num) (by norm_num),
            hrR 64 0 (by norm_num) (by norm_num)]
          norm_num [quadrantFn]
        · refine Finset.mem_image.2 ⟨(64, 64), Finset.mem_product.2
            ⟨Finset.mem_range.2 (by norm_num), Finset.mem_range.2 (by norm_num)⟩, ?_⟩
          rw [hrB 64 64 (by norm_num) (by norm_num), hrG 64 64 (by norm_num) (by norm_num),
            hrR 64 64 (by norm_num) (by norm_num)]
          norm_num [quadrantFn]
    rw [himg]
    decide
  show isScreenshot (Image.color 1200 1200 fourBlockB fourBlockG fourBlockR) 100 128 = _
  simp only [isScreenshot]
  rw [if_neg hwp, if_neg hmcd, if_pos (by rw [huc]; norm_num), huc]
  rfl

/-- Sum of a parity-alternating two-valued function over an even range. -/
theorem sum_mod2 (n : ℕ) (a b : ℚ) :
    ∑ j ∈ Finset.range (2 * n), (if j % 2 = 0 then a else b) = n * (a + b) := by
  induction n with
  | zero => simp
  | succ m ih =>
    rw [show 2 * (m + 1) = 2 * m + 1 + 1 by ring, Finset.sum_range_succ,
      Finset.sum_range_succ, ih, if_pos (by omega : (2 * m) % 2 = 0),
      if_neg (by omega : ¬(2 * m + 1) % 2 = 0)]
    push_cast
    ring

/-- Sum of the mirrored parity-alternating function over an even range. -/
theorem sum_mod2' (n : ℕ) (a b : ℚ) :
    ∑ j ∈ Finset.range (2 * n), (if j % 2 = 1 then a else b) = n * (a + b) := by
  induction n with
  | zero => simp
  | succ m ih =>
    rw [show 2 * (m + 1) = 2 * m + 1 + 1 by ring, Finset.sum_range_succ,
      Finset.sum_range_succ, ih, if_neg (by omega : ¬(2 * m) % 2 = 1),
      if_pos (by omega : (2 * m + 1) % 2 = 1)]
    push_cast
    ring

/-- Each row of the noise checkerboard sums to 600·40 + 600·160. -/
theorem noise_row_sum (k : ℕ) : ∑ j ∈ Finset.range 1200, noisePix k j = 120000 := by
  rcases Nat.mod_two_eq_zero_or_one k with hk | hk
  · have hpt : ∀ j ∈ Finset.range 1200, noisePix k j =
        if j % 2 = 0 then (40 : ℚ) else 160 := by
      intro j _
      unfold noisePix
      simp only [show ((k + j) % 2 = 0) ↔ (j % 2 = 0) from by omega]
    rw [Finset.sum_congr rfl hpt,
      show (Finset.range 1200) = Finset.range (2 * 600) from by norm_num, sum_mod2]
    norm_num
  · have hpt : ∀ j ∈ Finset.range 1200, noisePix k j =
        if j % 2 = 1 then (40 : ℚ) else 160 := by
      intro j _
      unfold noisePix
      simp only [show ((k + j) % 2 = 0) ↔ (j % 2 = 1) from by omega]
    rw [Finset.sum_congr rfl hpt,
      show (Finset.range 1200) = Finset.range (2 * 600) from by norm_num, sum_mod2']
    norm_num

/-- The grayscale of the noise image is the noise texture itself (all three
channels are equal). -/
theorem noise_gray_pt (i j : ℕ) : (toGray noiseImage).pix i j = noisePix i j := by
  show bgr2gray (noisePix i j) (noisePix i j) (noisePix i j) = noisePix i j
  unfold bgr2gray
  ring

/-- Mean gray level of the noise image. -/
theorem noise_mean : meanPix (toGray noiseImage) = 100 := by
  unfold meanPix sumPix gridSum
  show (∑ i ∈ Finset.range 1200, ∑ j ∈ Finset.range 1200, (toGray noiseImage).pix i j) /
    (((1200 : ℕ) : ℚ) * ((1200 : ℕ) : ℚ)) = 100
  rw [Finset.sum_congr rfl fun i _ => Finset.sum_congr rfl fun j _ => noise_gray_pt i j]
  rw [Finset.sum_congr rfl fun i _ => noise_row_sum i]
  simp only [Finset.sum_const, Finset.card_range, nsmul_eq_mul]
  norm_num

/-- The noise image is not near-uniform: its grayscale variance is 3600. -/
theorem noise_not_near_uniform : isNearUniform noiseImage 5 = none := by
  have hvar : varPix (toGray noiseImage) = 3600 := by
    unfold varPix gridSum
    rw [noise_mean]
    have hpt : ∀ i ∈ Finset.range (toGray noiseImage).h,
        ∀ j ∈ Finset.range (toGray noiseImage).w,
        (fun i j => ((toGray noiseImage).pix i j - 100) ^ 2) i j = (3600 : ℚ) := by
      intro i _ j _
      show ((toGray noiseImage).pix i j - 100) ^ 2 = 3600
      rw [noise_gray_pt i j]
      unfold noisePix
      by_cases h : (i + j) % 2 = 0 <;> simp only [h, ite_true, ite_false, if_pos,
        if_neg, not_false_iff] <;> norm_num
    rw [Finset.sum_congr rfl fun i hi => Finset.sum_congr rfl fun j hj => hpt i hi j hj]
    simp only [Finset.sum_const, Finset.card_range, nsmul_eq_mul]
    norm_num [toGray, noiseImage]
  unfold isNearUniform
  rw [if_neg]
  rintro ⟨-, hlt⟩
  rw [hvar] at hlt
  norm_num at hlt

/-- The noise image is not classified as a screenshot: no near-white pixels
after downscaling (all values at most 160), and the three channels are
identical, so the grayscale early-out accepts it. -/
theorem noise_screenshot : isScreenshot noiseImage 100 128 = none := by
  have hle : ∀ i j, i < 128 → j < 128 →
      (resize ⟨1200, 1200, noisePix⟩ 128 128).pix i j ≤ 160 := by
    intro i j hi hj
    apply resizePix_le ⟨1200, 1200, noisePix⟩ 128 128 i j 160 (by norm_num) (by norm_num)
      (by norm_num) (by norm_num) hi hj
    intro r c _ _
    show noisePix r c ≤ 160
    unfold noisePix
    by_cases h : (r + c) % 2 = 0 <;> simp only [h, ite_true, ite_false, if_pos,
      if_neg, not_false_iff] <;> norm_num
  have hwc : screenshotWhiteCount 1200 1200 noisePix noisePix noisePix 128 = 0 := by
    simp only [screenshotWhiteCount]
    refine Finset.sum_eq_zero fun i hi => Finset.sum_eq_zero fun j hj => ?_
    have hi' := Finset.mem_range.1 hi
    have hj' := Finset.mem_range.1 hj
    rw [if_neg]
    have hX := hle i j hi' hj'
    have hg : bgr2gray ((resize ⟨1200, 1200, noisePix⟩ 128 128).pix i j)
        ((resize ⟨1200, 1200, noisePix⟩ 128 128).pix i j)
        ((resize ⟨1200, 1200, noisePix⟩ 128 128).pix i j) =
        (resize ⟨1200, 1200, noisePix⟩ 128 128).pix i j := by
      unfold bgr2gray
      ring
    rw [hg]
    linarith
  have hwp : ¬30 < screenshotWhitePct 1200 1200 noisePix noisePix noisePix 128 := by
    unfold screenshotWhitePct
    rw [hwc]
    norm_num
  have hmcd : screenshotMeanChannelDiff 1200 1200 noisePix noisePix noisePix 128 < 10 := by
    simp only [screenshotMeanChannelDiff, sub_self, abs_zero, Finset.sum_const,
      Finset.card_range, nsmul_eq_mul, mul_zero]
    norm_num
  show isScreenshot (Image.color 1200 1200 noisePix noisePix noisePix) 100 128 = _
  simp only [isScreenshot]
  rw [if_neg hwp, if_pos hmcd]

/-- `_rejection_reason` as an if-chain: size first (only when
`min_photo_area > 0` and the pixel area is below it), then near-uniform,
then screenshot, first failure winning. -/
theorem rejection_pipeline_eq (img : Image) (mpa : ℕ) :
    rejectionReason img mpa =
      if 0 < mpa ∧ img.width * img.height < mpa then
        some ("too small (" ++ toString img.width ++ "x" ++ toString img.height ++ ")")
      else if (isNearUniform img 5).isSome then isNearUniform img 5
      else isScreenshot img 100 128 := by
  unfold rejectionReason
  by_cases hsz : 0 < mpa ∧ img.width * img.height < mpa
  · rw [if_pos hsz, if_pos hsz]
  · rw [if_neg hsz, if_neg hsz]
    cases hnu : isNearUniform img 5 with
    | some r => simp
    | none => cases hsc : isScreenshot img 100 128 <;> simp [hsc]

/-! ### Claim theorems -/

/-- C6: `_find_text_gap_from_edge` returns `(10, 13)` on the profile
`[0.02, 0.03, 0.01, 0×10, 0.5, 0.8, 0.9]` with `content_fraction = 0.3` and
`min_gap_px = 10`, `(0, 0)` on the all-dense profile `[0.5, 0.6, 0.7, 0.8,
0.9]`, and `(0, 0)` on the empty profile. -/
theorem c6_find_text_gap_examples :
    findTextGapFromEdge
        [0.02, 0.03, 0.01, 0, 0, 0, 0, 0, 0, 0, 0, 0, 0, 0.5, 0.8, 0.9] 0.3 10 = (10, 13) ∧
      findTextGapFromEdge [0.5, 0.6, 0.7, 0.8, 0.9] 0.3 10 = (0, 0) ∧
      findTextGapFromEdge [] 0.3 10 = (0, 0) := by
  refine ⟨?_, ?_, ?_⟩
  · norm_num [findTextGapFromEdge, List.range_succ, List.find?, List.getD, List.any]
  · norm_num [findTextGapFromEdge, List.range_succ, List.find?, List.getD]
  · norm_num [findTextGapFromEdge]

/-- C3 (counterexample): the scanner's frame step is not
`round(lowres_fps × step_time)` clamped to 1 — at `fps = 29`,
`step_time = 0.1` the code computes `int(2.9) = 2` while rounding gives 3. -/
theorem c3_counterexample :
    frameStep 29 (1 / 10) ≠ max 1 (round ((29 : ℚ) * (1 / 10))) := by
  have h1 : frameStep 29 (1 / 10) = 2 := by
    norm_num [frameStep, pythonInt]
  have h2 : round ((29 : ℚ) * (1 / 10)) = 3 := by
    norm_num [round_eq]
  rw [h1, h2]
  decide

/-- C3 (amended): for every `fps > 0` and `step_time ≥ 0`, the scanner's
step size in frames is `int(fps × step_time)` — truncation toward zero,
i.e. the floor for these nonnegative products — clamped below by 1. -/
theorem c3_frame_step_floor (fps stepTime : ℚ) (hfps : 0 < fps) (hst : 0 ≤ stepTime) :
    frameStep fps stepTime = max 1 ⌊fps * stepTime⌋ := by
  have hnn : 0 ≤ fps * stepTime := mul_nonneg hfps.le hst
  have hfloor : (0 : ℤ) ≤ ⌊fps * stepTime⌋ ∨ ⌊fps * stepTime⌋ < 1 := by omega
  unfold frameStep pythonInt
  rw [if_pos hnn]
  rcases lt_or_le ⌊fps * stepTime⌋ 1 with hlt | hle
  · rw [if_pos hlt]; omega
  · rw [if_neg (by omega)]; omega

/-- C3 witness: the amended step rule evaluated at `fps = 29`,
`step_time = 0.1`. -/
theorem c3_frame_step_floor_witness :
    frameStep 29 (1 / 10) = max 1 ⌊(29 : ℚ) * (1 / 10)⌋ :=
  c3_frame_step_floor 29 (1 / 10) (by norm_num) (by norm_num)

/-- C9: for every decoder behaviour and candidate list,
`extract_fullres_frames` records exactly one outcome per candidate (every
per-candidate extraction failure, unreadable frame, or rejection is absorbed
as a logged skip and processing continues — the fold is total, nothing
escapes), and the returned saved count plus the number of non-saved
(skipped) candidates equals the number of candidates. -/
theorem c9_extractor_accounting (decode : ℚ → DecodeResult) (filenameSafe : String)
    (candidates : List (ℚ × String)) (borderPx minPhotoArea : ℕ) (includeText : Bool) :
    (extractFullresFrames decode filenameSafe candidates borderPx minPhotoArea includeText).2 =
        candidates.map (processCandidate decode filenameSafe borderPx minPhotoArea includeText) ∧
      (extractFullresFrames decode filenameSafe candidates borderPx minPhotoArea includeText).1 =
        (((extractFullresFrames decode filenameSafe candidates borderPx minPhotoArea
            includeText).2).filter isSavedOutcome).length ∧
      (extractFullresFrames decode filenameSafe candidates borderPx minPhotoArea includeText).1 +
          (((extractFullresFrames decode filenameSafe candidates borderPx minPhotoArea
              includeText).2).filter fun o => !isSavedOutcome o).length =
        candidates.length := by
  unfold extractFullresFrames
  rw [extractFold_eq]
  refine ⟨by simp, by simp, ?_⟩
  simp only [Nat.zero_add, List.nil_append]
  rw [length_filter_add_length_filter_not]
  simp

/-- `Char.ofNat` round-trips through `toNat` below the surrogate range. -/
theorem char_toNat_ofNat_of_lt (n : ℕ) (h : n < 55296) : (Char.ofNat n).toNat = n := by
  have hv : n.isValidChar := Or.inl h
  simp [Char.ofNat, dif_pos hv, Char.ofNatAux, Char.toNat, UInt32.toNat]

/-- Characters with different code points differ. -/
theorem char_ne_of_toNat_ne (a b : Char) (h : a.toNat ≠ b.toNat) : a ≠ b :=
  fun hab => h (by rw [hab])

/-- Lowercasing a kept character (word character or hyphen) yields a kept
character that is not whitespace, not a path separator, and not an
uppercase ASCII letter. -/
theorem pyLower_keep (d : Char) (hd : isWordChar d = true ∨ d = '-') :
    (isWordChar (pyLower d) = true ∨ pyLower d = '-') ∧ isSpaceChar (pyLower d) = false ∧
      pyLower d ≠ '/' ∧ pyLower d ≠ '\\' ∧
      ¬(65 ≤ (pyLower d).toNat ∧ (pyLower d).toNat ≤ 90) := by
  rcases hd with hd | hd
  · simp only [isWordChar, decide_eq_true_eq] at hd
    by_cases hup : 65 ≤ d.toNat ∧ d.toNat ≤ 90
    · have hlow : (pyLower d).toNat = d.toNat + 32 := by
        rw [pyLower, if_pos hup, char_toNat_ofNat_of_lt _ (by omega)]
      refine ⟨Or.inl ?_, ?_, ?_, ?_, ?_⟩
      · simp only [isWordChar, decide_eq_true_eq, hlow]; omega
      · simp only [isSpaceChar, hlow, decide_eq_false_iff_not]; omega
      · exact char_ne_of_toNat_ne _ _ (by rw [hlow]; show _ ≠ 47; omega)
      · exact char_ne_of_toNat_ne _ _ (by rw [hlow]; show _ ≠ 92; omega)
      · rw [hlow]; omega
    · have hid : pyLower d = d := by rw [pyLower, if_neg hup]
      rw [hid]
      refine ⟨Or.inl ?_, ?_, ?_, ?_, hup⟩
      · simp only [isWordChar, decide_eq_true_eq]; tauto
      · simp only [isSpaceChar, decide_eq_false_iff_not]; omega
      · exact char_ne_of_toNat_ne _ _ (show _ ≠ 47 by omega)
      · exact char_ne_of_toNat_ne _ _ (show _ ≠ 92 by omega)
  · subst hd
    refine ⟨?_, ?_, ?_, ?_, ?_⟩ <;> decide

/-- C7: `hash_difference(h, h) = 0` for every hash, `hash_difference` is
symmetric, and for every constant frame (all grayscale pixels one value,
e.g. all-black or all-white) `compute_frame_hash` returns the uniform
all-`False` 8×8 boolean matrix — no resized pixel strictly exceeds the
frame's own mean. -/
theorem c7_hash_properties :
    (∀ h : Hash, hashDifference h h = 0) ∧
      (∀ a b : Hash, hashDifference a b = hashDifference b a) ∧
      ∀ (frame : Image) (c : ℚ), 0 < (toGray frame).h → 0 < (toGray frame).w →
        (∀ i j, i < (toGray frame).h → j < (toGray frame).w → (toGray frame).pix i j = c) →
        ∀ i j, i < 8 → j < 8 → computeFrameHash frame i j = false := by
  refine ⟨hashDifference_self, hashDifference_comm, ?_⟩
  intro frame c hh hw hconst i j hi hj
  have hres : ∀ i' j', i' < 8 → j' < 8 → resizePix (toGray frame) 8 8 i' j' = c := by
    intro i' j' hi' hj'
    exact resizePix_const (toGray frame) 8 8 i' j' c hh hw (by norm_num) (by norm_num) hi' hj'
      fun r c' hr hc' _ _ => hconst r c' hr hc'
  have hsum : sumPix (resize (toGray frame) 8 8) = 64 * c := by
    unfold sumPix gridSum resize
    rw [Finset.sum_congr rfl fun i' hi' => Finset.sum_congr rfl fun j' hj' =>
      hres i' j' (Finset.mem_range.1 hi') (Finset.mem_range.1 hj')]
    simp [Finset.sum_const, Finset.card_range]
    ring
  have hmean : meanPix (resize (toGray frame) 8 8) = c := by
    unfold meanPix
    rw [hsum]
    norm_num [resize]
  show decide (meanPix (resize (toGray frame) HASH_SIZE HASH_SIZE) <
    (resize (toGray frame) HASH_SIZE HASH_SIZE).pix i j) = false
  have h8 : HASH_SIZE = 8 := rfl
  rw [h8, hmean]
  have : (resize (toGray frame) 8 8).pix i j = c := hres i j hi hj
  rw [this]
  simp

/-- C7 witness: the theorem applied to a concrete 2×3 constant frame and to
its own hash. -/
theorem c7_hash_properties_witness :
    hashDifference (computeFrameHash constImage) (computeFrameHash constImage) = 0 ∧
      computeFrameHash constImage 0 0 = false := by
  refine ⟨c7_hash_properties.1 _, ?_⟩
  exact c7_hash_properties.2.2 constImage 5 (by norm_num [constImage, toGray])
    (by norm_num [constImage, toGray]) (fun i j _ _ => rfl) 0 0 (by norm_num) (by norm_num)

/-- C1: for every frame sequence in which frames 0–4 are near-identical
views of one photo A (pairwise hash Hamming distance at most 3, each
passing the border test and not near-uniform), frame 5 fails the border
test, and frames 6–9 are near-identical views of a photo B under the same
conditions, `scan_for_photos` (at `fps = 1`, `step_time = 1`, 10 frames)
emits exactly two candidates: one at frame 0's timestamp and one at frame
6's timestamp. No hypothesis relates B's hashes to A's — the reset on the
non-photo frame guarantees frame 6 is always recorded as new. -/
theorem c1_scanner_dedup (f0 f1 f2 f3 f4 f5 f6 f7 f8 f9 : Image)
    (hA : ∀ x ∈ [f0, f1, f2, f3, f4],
      detectAlmostUniformBorders x 5 5 1 = true ∧ isNearUniform x 5 = none)
    (hApair : ∀ x ∈ [f0, f1, f2, f3, f4], ∀ y ∈ [f0, f1, f2, f3, f4],
      hashDifference (computeFrameHash x) (computeFrameHash y) ≤ 3)
    (h5 : detectAlmostUniformBorders f5 5 5 1 = false)
    (hB : ∀ x ∈ [f6, f7, f8, f9],
      detectAlmostUniformBorders x 5 5 1 = true ∧ isNearUniform x 5 = none)
    (hBpair : ∀ x ∈ [f6, f7, f8, f9], ∀ y ∈ [f6, f7, f8, f9],
      hashDifference (computeFrameHash x) (computeFrameHash y) ≤ 3) :
    scanForPhotos
        (fun k => if k = 0 then some f0 else if k = 1 then some f1 else
          if k = 2 then some f2 else if k = 3 then some f3 else if k = 4 then some f4 else
          if k = 5 then some f5 else if k = 6 then some f6 else if k = 7 then some f7 else
          if k = 8 then some f8 else if k = 9 then some f9 else none) 1 1 10 =
      [(0, "0m00s"), (6, "0m06s")] := by
  obtain ⟨hd0, hn0⟩ := hA f0 (by simp)
  obtain ⟨hd1, hn1⟩ := hA f1 (by simp)
  obtain ⟨hd2, hn2⟩ := hA f2 (by simp)
  obtain ⟨hd3, hn3⟩ := hA f3 (by simp)
  obtain ⟨hd4, hn4⟩ := hA f4 (by simp)
  obtain ⟨hd6, hn6⟩ := hB f6 (by simp)
  obtain ⟨hd7, hn7⟩ := hB f7 (by simp)
  obtain ⟨hd8, hn8⟩ := hB f8 (by simp)
  obtain ⟨hd9, hn9⟩ := hB f9 (by simp)
  have d10 := hApair f1 (by simp) f0 (by simp)
  have d20 := hApair f2 (by simp) f0 (by simp)
  have d21 := hApair f2 (by simp) f1 (by simp)
  have d30 := hApair f3 (by simp) f0 (by simp)
  have d32 := hApair f3 (by simp) f2 (by simp)
  have d40 := hApair f4 (by simp) f0 (by simp)
  have d43 := hApair f4 (by simp) f3 (by simp)
  have d76 := hBpair f7 (by simp) f6 (by simp)
  have d86 := hBpair f8 (by simp) f6 (by simp)
  have d87 := hBpair f8 (by simp) f7 (by simp)
  have d96 := hBpair f9 (by simp) f6 (by simp)
  have d98 := hBpair f9 (by simp) f8 (by simp)
  unfold scanForPhotos
  rw [show (frameStep 1 1).toNat = 1 from by norm_num [frameStep, pythonInt]]
  rw [scanLoop_step_photo_new _ 10 1 1 0 none none [] f0 (by norm_num) (by norm_num)
    rfl ⟨hd0, hn0⟩ rfl]
  simp only [Nat.reduceAdd, List.nil_append]
  rw [scanLoop_step_photo_old _ 10 1 1 1 (some (computeFrameHash f0))
    (some (computeFrameHash f0)) _ f1 (by norm_num) (by norm_num) rfl ⟨hd1, hn1⟩
    (isNewPhotoB_eq_false _ _ _ d10 d10)]
  simp only [Nat.reduceAdd]
  rw [scanLoop_step_photo_old _ 10 1 1 2 (some (computeFrameHash f0))
    (some (computeFrameHash f1)) _ f2 (by norm_num) (by norm_num) rfl ⟨hd2, hn2⟩
    (isNewPhotoB_eq_false _ _ _ d21 d20)]
  simp only [Nat.reduceAdd]
  rw [scanLoop_step_photo_old _ 10 1 1 3 (some (computeFrameHash f0))
    (some (computeFrameHash f2)) _ f3 (by norm_num) (by norm_num) rfl ⟨hd3, hn3⟩
    (isNewPhotoB_eq_false _ _ _ d32 d30)]
  simp only [Nat.reduceAdd]
  rw [scanLoop_step_photo_old _ 10 1 1 4 (some (computeFrameHash f0))
    (some (computeFrameHash f3)) _ f4 (by norm_num) (by norm_num) rfl ⟨hd4, hn4⟩
    (isNewPhotoB_eq_false _ _ _ d43 d40)]
  simp only [Nat.reduceAdd]
  rw [scanLoop_step_reset _ 10 1 1 5 (some (computeFrameHash f0))
    (some (computeFrameHash f4)) _ f5 (by norm_num) (by norm_num) rfl (by simp [h5])]
  simp only [Nat.reduceAdd]
  rw [scanLoop_step_photo_new _ 10 1 1 6 none none _ f6 (by norm_num) (by norm_num)
    rfl ⟨hd6, hn6⟩ rfl]
  simp only [Nat.reduceAdd]
  rw [scanLoop_step_photo_old _ 10 1 1 7 (some (computeFrameHash f6))
    (some (computeFrameHash f6)) _ f7 (by norm_num) (by norm_num) rfl ⟨hd7, hn7⟩
    (isNewPhotoB_eq_false _ _ _ d76 d76)]
  simp only [Nat.reduceAdd]
  rw [scanLoop_step_photo_old _ 10 1 1 8 (some (computeFrameHash f6))
    (some (computeFrameHash f7)) _ f8 (by norm_num) (by norm_num) rfl ⟨hd8, hn8⟩
    (isNewPhotoB_eq_false _ _ _ d87 d86)]
  simp only [Nat.reduceAdd]
  rw [scanLoop_step_photo_old _ 10 1 1 9 (some (computeFrameHash f6))
    (some (computeFrameHash f8)) _ f9 (by norm_num) (by norm_num) rfl ⟨hd9, hn9⟩
    (isNewPhotoB_eq_false _ _ _ d98 d96)]
  simp only [Nat.reduceAdd]
  rw [scanLoop_stop _ 10 1 1 10 (some (computeFrameHash f6))
    (some (computeFrameHash f9)) _ (by norm_num)]
  have hts0 : tsOf 1 0 = 0 := by norm_num [tsOf]
  have hts6 : tsOf 1 6 = 6 := by norm_num [tsOf]
  rw [hts0, hts6]
  have hstr0 : timeStrOf 0 = "0m00s" := by
    have h1 : pythonInt 0 = 0 := by norm_num [pythonInt]
    simp only [timeStrOf, h1]
    norm_num [pythonInt]
    rfl
  have hstr6 : timeStrOf 6 = "0m06s" := by
    have h1 : pythonInt 6 = 6 := by norm_num [pythonInt]
    simp only [timeStrOf, h1]
    norm_num [pythonInt, pad2]
    rfl
  rw [hstr0, hstr6]
  simp

/-- C1 witness: the theorem applied to a concrete sequence — five copies of
the photo-like test frame, the checkerboard video frame, then four more
copies of the photo-like frame. -/
theorem c1_scanner_dedup_witness :
    scanForPhotos
        (fun k => if k = 0 then some photoFrame else if k = 1 then some photoFrame else
          if k = 2 then some photoFrame else if k = 3 then some photoFrame else
          if k = 4 then some photoFrame else if k = 5 then some videoFrame else
          if k = 6 then some photoFrame else if k = 7 then some photoFrame else
          if k = 8 then some photoFrame else if k = 9 then some photoFrame else none) 1 1 10 =
      [(0, "0m00s"), (6, "0m06s")] := by
  have hph : detectAlmostUniformBorders photoFrame 5 5 1 = true ∧
      isNearUniform photoFrame 5 = none := by
    constructor
    · norm_num [detectAlmostUniformBorders, toGray, photoFrame, photoFramePix, rectVar,
        varPix, gridSum, meanPix, sumPix, stdLe, Finset.sum_range_succ]
    · norm_num [isNearUniform, stdLt, toGray, photoFrame, photoFramePix, varPix,
        gridSum, meanPix, sumPix, Finset.sum_range_succ]
  have hvid : detectAlmostUniformBorders videoFrame 5 5 1 = false := by
    norm_num [detectAlmostUniformBorders, toGray, videoFrame, rectVar, varPix,
      gridSum, meanPix, sumPix, stdLe, Finset.sum_range_succ]
  have hmemA : ∀ x ∈ [photoFrame, photoFrame, photoFrame, photoFrame, photoFrame],
      detectAlmostUniformBorders x 5 5 1 = true ∧ isNearUniform x 5 = none := by
    intro x hx
    simp only [List.mem_cons, List.not_mem_nil, or_false] at hx
    rcases hx with rfl | rfl | rfl | rfl | rfl <;> exact hph
  have hpairA : ∀ x ∈ [photoFrame, photoFrame, photoFrame, photoFrame, photoFrame],
      ∀ y ∈ [photoFrame, photoFrame, photoFrame, photoFrame, photoFrame],
      hashDifference (computeFrameHash x) (computeFrameHash y) ≤ 3 := by
    intro x hx y hy
    simp only [List.mem_cons, List.not_mem_nil, or_false] at hx hy
    rcases hx with rfl | rfl | rfl | rfl | rfl <;>
      rcases hy with rfl | rfl | rfl | rfl | rfl <;>
      simp [hashDifference_self]
  have hmemB : ∀ x ∈ [photoFrame, photoFrame, photoFrame, photoFrame],
      detectAlmostUniformBorders x 5 5 1 = true ∧ isNearUniform x 5 = none := by
    intro x hx
    simp only [List.mem_cons, List.not_mem_nil, or_false] at hx
    rcases hx with rfl | rfl | rfl | rfl <;> exact hph
  have hpairB : ∀ x ∈ [photoFrame, photoFrame, photoFrame, photoFrame],
      ∀ y ∈ [photoFrame, photoFrame, photoFrame, photoFrame],
      hashDifference (computeFrameHash x) (computeFrameHash y) ≤ 3 := by
    intro x hx y hy
    simp only [List.mem_cons, List.not_mem_nil, or_false] at hx hy
    rcases hx with rfl | rfl | rfl | rfl <;> rcases hy with rfl | rfl | rfl | rfl <;>
      simp [hashDifference_self]
  exact c1_scanner_dedup photoFrame photoFrame photoFrame photoFrame photoFrame videoFrame
    photoFrame photoFrame photoFrame photoFrame hmemA hpairA hvid hmemB hpairB

/-- C2: in the scanner, a sampled frame is treated as "inside a photo
region" — its hash computed and carried in the step state, and considered
for candidacy — if and only if the border classifier
`detect_almost_uniform_borders` fires on it AND `_is_near_uniform` returns
`None`; in every other case both carried hash states are cleared and no
candidate is emitted for that frame. -/
theorem c2_scan_photo_region_iff (frames : ℕ → Option Image) (total step : ℕ) (fps : ℚ)
    (cur : ℕ) (p s : Option Hash) (acc : List (ℚ × String)) (f : Image)
    (hc : cur < total) (hs : 1 ≤ step) (hf : frames cur = some f) :
    ∃ p' s' newCands,
      scanLoop frames total step fps cur p s acc =
          scanLoop frames total step fps (cur + step) p' s' (acc ++ newCands) ∧
        ((detectAlmostUniformBorders f 5 5 1 = true ∧ isNearUniform f 5 = none) ↔
          s' = some (computeFrameHash f)) ∧
        ((detectAlmostUniformBorders f 5 5 1 = true ∧ isNearUniform f 5 = none) →
          p' = (if isNewPhotoB p s (computeFrameHash f) then some (computeFrameHash f) else p) ∧
            newCands = (if isNewPhotoB p s (computeFrameHash f) then
              [(tsOf fps cur, timeStrOf (tsOf fps cur))] else [])) ∧
        (¬(detectAlmostUniformBorders f 5 5 1 = true ∧ isNearUniform f 5 = none) →
          p' = none ∧ s' = none ∧ newCands = []) := by
  by_cases hcond : detectAlmostUniformBorders f 5 5 1 = true ∧ isNearUniform f 5 = none
  · refine ⟨if isNewPhotoB p s (computeFrameHash f) then some (computeFrameHash f) else p,
      some (computeFrameHash f),
      if isNewPhotoB p s (computeFrameHash f) then
        [(tsOf fps cur, timeStrOf (tsOf fps cur))] else [],
      ?_, iff_of_true hcond rfl, fun _ => ⟨rfl, rfl⟩, fun hn => absurd hcond hn⟩
    rw [scanLoop_step_photo frames total step fps cur p s acc f hc hs hf hcond]
    by_cases hnew : isNewPhotoB p s (computeFrameHash f) = true
    · simp [hnew]
    · simp only [Bool.not_eq_true] at hnew
      simp [hnew]
  · refine ⟨none, none, [], ?_, iff_of_false hcond (by simp), fun h => absurd h hcond,
      fun _ => ⟨rfl, rfl, rfl⟩⟩
    rw [scanLoop_step_reset frames total step fps cur p s acc f hc hs hf hcond]
    rw [List.append_nil]

/-- C2 witness: the theorem applied at a one-frame video whose single frame
is the concrete photo-like frame. -/
theorem c2_scan_photo_region_iff_witness :
    ∃ p' s' newCands,
      scanLoop (fun _ => some photoFrame) 1 1 1 0 none none [] =
          scanLoop (fun _ => some photoFrame) 1 1 1 1 p' s' ([] ++ newCands) ∧
        ((detectAlmostUniformBorders photoFrame 5 5 1 = true ∧
            isNearUniform photoFrame 5 = none) ↔ s' = some (computeFrameHash photoFrame)) ∧
        ((detectAlmostUniformBorders photoFrame 5 5 1 = true ∧
            isNearUniform photoFrame 5 = none) →
          p' = (if isNewPhotoB none none (computeFrameHash photoFrame) then
              some (computeFrameHash photoFrame) else none) ∧
            newCands = (if isNewPhotoB none none (computeFrameHash photoFrame) then
              [(tsOf 1 0, timeStrOf (tsOf 1 0))] else [])) ∧
        (¬(detectAlmostUniformBorders photoFrame 5 5 1 = true ∧
            isNearUniform photoFrame 5 = none) →
          p' = none ∧ s' = none ∧ newCands = []) :=
  c2_scan_photo_region_iff (fun _ => some photoFrame) 1 1 1 0 none none [] photoFrame
    (by norm_num) (by norm_num) rfl

/-- C4: `_rejection_reason` evaluates its checks in the fixed order
size → near-uniform → screenshot and returns the reason of the first check
that fails, or `None` when all pass; the size check fires only when
`min_photo_area > 0` and `width·height < min_photo_area`. In particular,
with `min_photo_area = 0`: a 1200×1200 solid-color image is rejected as
`"near-uniform frame"`, the 1200×1200 four-flat-block color image is
rejected as `"screenshot (4 unique colors)"`, and a 1200×1200
high-variance noise texture (the spec's random-noise image, modelled as a
deterministic 40/160 checkerboard with equal channels) is accepted. -/
theorem c4_rejection_reason :
    (∀ (img : Image) (mpa : ℕ),
        rejectionReason img mpa =
          if 0 < mpa ∧ img.width * img.height < mpa then
            some ("too small (" ++ toString img.width ++ "x" ++ toString img.height ++ ")")
          else if (isNearUniform img 5).isSome then isNearUniform img 5
          else isScreenshot img 100 128) ∧
      rejectionReason solidImage 0 = some "near-uniform frame" ∧
      rejectionReason fourBlockImage 0 = some "screenshot (4 unique colors)" ∧
      rejectionReason noiseImage 0 = none := by
  refine ⟨rejection_pipeline_eq, ?_, ?_, ?_⟩
  · rw [rejection_pipeline_eq, if_neg (by norm_num), solid_near_uniform]
    simp
  · rw [rejection_pipeline_eq, if_neg (by norm_num), fourBlock_not_near_uniform,
      fourBlock_screenshot]
    simp
  · rw [rejection_pipeline_eq, if_neg (by norm_num), noise_not_near_uniform,
      noise_screenshot]
    simp

/-- C5: for every fully uniform image — every row's grayscale standard
deviation at or below the uniformity threshold, so the top scan finds no
content boundary — `trim_and_add_border` returns the input image unchanged,
for any `border_px` and `include_text` setting. -/
theorem c5_trim_identity (image : Image) (borderPx : ℕ) (t : ℚ) (includeText : Bool)
    (hrows : ∀ i, i < (toGray image).h → rowStdGtB (toGray image) t i = false) :
    trimAndAddBorder image borderPx t includeText = image := by
  have hfind : (List.range (toGray image).h).find? (rowStdGtB (toGray image) t) = none :=
    List.find?_eq_none.2 fun i hi => by
      rw [hrows i (List.mem_range.1 hi)]
      simp
  simp only [trimAndAddBorder, hfind]

/-- C5 witness: the theorem applied to a 3×4 solid image at the default
parameters. -/
theorem c5_trim_identity_witness : trimAndAddBorder uniformImage 5 10 true = uniformImage := by
  refine c5_trim_identity uniformImage 5 10 true fun i _ => ?_
  norm_num [rowStdGtB, stdGt, rowVar, rectVar, varPix, gridSum, meanPix, sumPix,
    toGray, uniformImage, Finset.sum_range_succ]

/-- C8: `_is_screenshot` evaluates its stages in order with first match
winning: every 3-channel image whose downscaled white-background percentage
exceeds 30% gets a screenshot reason regardless of color richness;
otherwise a mean absolute channel difference below 10 (effectively
monochrome) yields `None` without consulting the color count; otherwise the
result is a screenshot reason exactly when the count of 32-level-quantized
colors is below the threshold. Single-channel images yield `None`
unconditionally. -/
theorem c8_screenshot_stages (cct ss : ℕ) (img : Image) :
    (∀ h w p, img = .gray h w p → isScreenshot img cct ss = none) ∧
      ∀ h w b g r, img = .color h w b g r →
        (30 < screenshotWhitePct h w b g r ss →
            isScreenshot img cct ss =
              some ("screenshot (" ++ toString (round (screenshotWhitePct h w b g r ss)) ++
                "% white background)")) ∧
          (¬30 < screenshotWhitePct h w b g r ss →
            screenshotMeanChannelDiff h w b g r ss < 10 →
            isScreenshot img cct ss = none) ∧
          (¬30 < screenshotWhitePct h w b g r ss →
            ¬screenshotMeanChannelDiff h w b g r ss < 10 →
            isScreenshot img cct ss =
              if screenshotUniqueColors h w b g r ss < cct then
                some ("screenshot (" ++ toString (screenshotUniqueColors h w b g r ss) ++
                  " unique colors)")
              else none) := by
  constructor
  · intro h w p heq
    subst heq
    rfl
  · intro h w b g r heq
    subst heq
    refine ⟨fun hwp => ?_, fun hwp hmcd => ?_, fun hwp hmcd => ?_⟩
    · simp only [isScreenshot]
      rw [if_pos hwp]
    · simp only [isScreenshot]
      rw [if_neg hwp, if_pos hmcd]
    · simp only [isScreenshot]
      rw [if_neg hwp, if_neg hmcd]

/-- C8 witness: the single-channel bypass on a concrete 1×1 grayscale image
and the white-background stage on a concrete 1×1 all-white color image
(downscale size 1), via the theorem. -/
theorem c8_screenshot_stages_witness :
    isScreenshot tinyGrayImage 100 128 = none ∧
      isScreenshot whiteImage 100 1 = some "screenshot (100% white background)" := by
  constructor
  · exact (c8_screenshot_stages 100 128 tinyGrayImage).1 1 1 (fun _ _ => 0) rfl
  · have hres : resizePix ⟨1, 1, fun _ _ => (255 : ℚ)⟩ 1 1 0 0 = 255 := by
      norm_num [resizePix, overlapLen, Finset.sum_range_succ]
    have hpct : screenshotWhitePct 1 1 (fun _ _ => (255 : ℚ)) (fun _ _ => 255)
        (fun _ _ => 255) 1 = 100 := by
      simp only [screenshotWhitePct, screenshotWhiteCount, resize, Finset.sum_range_succ,
        Finset.sum_range_zero, hres]
      norm_num [bgr2gray]
    have := (((c8_screenshot_stages 100 1 whiteImage).2 1 1 (fun _ _ => 255)
      (fun _ _ => 255) (fun _ _ => 255) rfl).1) (by rw [hpct]; norm_num)
    rw [this, hpct]
    have hr : round (100 : ℚ) = 100 := by norm_num [round_eq]
    rw [hr]
    rfl

/-- C10: every character of `make_safe_folder_name`'s output — the string
used to build every output JPEG and log filename — is a word character or a
hyphen; in particular the output contains no whitespace, no `/` or `\`
path separator, and no uppercase ASCII letter (code points 65–90).
Leading/trailing whitespace is stripped, interior whitespace runs become
single hyphens, other non-word non-hyphen characters are deleted, and the
result is lowercased. -/
theorem c10_safe_folder_name_chars (s : String) (c : Char)
    (hc : c ∈ (makeSafeFolderName s).data) :
    (isWordChar c = true ∨ c = '-') ∧ isSpaceChar c = false ∧ c ≠ '/' ∧ c ≠ '\\' ∧
      ¬(65 ≤ c.toNat ∧ c.toNat ≤ 90) := by
  have hc' : c ∈ ((collapseWs (stripChars s.data)).filter
      fun c => isWordChar c || c = '-').map pyLower := hc
  rcases List.mem_map.1 hc' with ⟨d, hdmem, rfl⟩
  have hkeep := (List.mem_filter.1 hdmem).2
  rcases Bool.or_eq_true_iff.1 hkeep with hw | heq
  · exact pyLower_keep d (Or.inl hw)
  · exact pyLower_keep d (Or.inr (by simpa using heq))

/-- C10 witness: the theorem applied to the sanitised name of
`"My Video!"` (which is `"my-video"`) at the character `'m'`. -/
theorem c10_safe_folder_name_chars_witness :
    (isWordChar 'm' = true ∨ 'm' = '-') ∧ isSpaceChar 'm' = false ∧ 'm' ≠ '/' ∧
      'm' ≠ '\\' ∧ ¬(65 ≤ 'm'.toNat ∧ 'm'.toNat ≤ 90) :=
  c10_safe_folder_name_chars "My Video!" 'm' (by decide)

end ExtractPhotos
